import Mathlib
/-!
Shallow embedding of `src/mdio/segy/geometry.py`: the grid-override engine,
the streamer-geometry classifier and the duplicate-trace auto-indexer.
Header arrays are modelled as association lists from header name to a list
of integers (numpy integer arrays in insertion-ordered Python dicts).
-/
/-- IndexHeaderSet: an insertion-ordered mapping from header name to a
per-trace integer array (`dict[str, npt.NDArray]`). -/
abbrev Headers := List (String × List Int)

/-- GridOverrideRequest: insertion-ordered mapping from override/parameter
name to value (`dict[str, bool | int]`; Python booleans are ints). -/
abbrev Request := List (String × Int)

/-- Dictionary lookup; the first binding wins (Python dict keys are unique). -/
def hlookup : Headers → String → Option (List Int)
  | [], _ => none
  | p :: t, k => if p.1 = k then some p.2 else hlookup t k

/-- Dictionary key list, in insertion order. -/
def hkeys (h : Headers) : List String := h.map Prod.fst

/-- Dictionary assignment `h[k] = v`: replaces the first binding of `k`
in place, or appends a new binding at the end (Python dict semantics). -/
def hset (h : Headers) (k : String) (v : List Int) : Headers :=
  match h with
  | [] => [(k, v)]
  | p :: rest => if p.1 = k then (k, v) :: rest else p :: hset rest k v

/-- Key membership in a request dict (`name in grid_overrides`). -/
def hasKey : Request → String → Bool
  | [], _ => false
  | p :: t, k => if p.1 = k then true else hasKey t k

/-- Parameter lookup in a request dict. -/
def lookupVal : Request → String → Option Int
  | [], _ => none
  | p :: t, k => if p.1 = k then some p.2 else lookupVal t k

/-- Model of `np.min` over a nonempty integer array (0 is a junk value for
`[]`, which the source never hits: cable ids are scanned from the arrays). -/
def listMin : List Int → Int
  | [] => 0
  | x :: xs => xs.foldl min x

/-- Model of `np.max` over a nonempty integer array. -/
def listMax : List Int → Int
  | [] => 0
  | x :: xs => xs.foldl max x

/-- Shot geometry template types A, B, C for streamer acquisition. -/
inductive StreamerShotGeometryType
  | A
  | B
  | C
deriving DecidableEq

/-- Model of `np.sort(np.unique(cable))`: distinct cable ids, ascending. -/
def uniqueCables (cable : List Int) : List Int :=
  List.insertionSort (· ≤ ·) cable.dedup

/-- Model of the boolean-mask selection `index_headers[channel][cable_mask]`: the channel values of
the traces on cable `c` (positionally zipped). -/
def cableChans (cable channel : List Int) (c : Int) : List Int :=
  (cable.zip channel).filterMap (fun p => if p.1 = c then some p.2 else none)

/-- Per-cable channel minimum (`cable_chan_min[idx]`). -/
def cableChanMin (cable channel : List Int) (c : Int) : Int :=
  listMin (cableChans cable channel c)

/-- Per-cable channel maximum (`cable_chan_max[idx]`). -/
def cableChanMax (cable channel : List Int) (c : Int) : Int :=
  listMax (cableChans cable channel c)

/-- The classification loop of `analyze_streamer_headers`: start at `B`;
for every ordered pair of distinct cable values whose channel intervals
satisfy `min2 < max1 and max2 > min1`, set the type to `A`. -/
def streamerGeomType (cable channel : List Int) : StreamerShotGeometryType :=
  (uniqueCables cable).foldl
    (fun g c =>
      (uniqueCables cable).foldl
        (fun g2 c2 =>
          if c2 = c then g2
          else
            if cableChanMin cable channel c2 < cableChanMax cable channel c ∧
                cableChanMax cable channel c2 > cableChanMin cable channel c then
              StreamerShotGeometryType.A
            else g2)
        g)
    StreamerShotGeometryType.B

/-- Model of `analyze_streamer_headers`: unique cables, per-cable channel
ranges and the geometry classification. -/
def analyze_streamer_headers (h : Headers) :
    List Int × List Int × List Int × StreamerShotGeometryType :=
  let cable := (hlookup h "cable").getD []
  let channel := (hlookup h "channel").getD []
  (uniqueCables cable,
    (uniqueCables cable).map (cableChanMin cable channel),
    (uniqueCables cable).map (cableChanMax cable channel),
    streamerGeomType cable channel)

/-- Some pair of distinct cables has strictly overlapping channel intervals
(the source's upgrade-to-A condition). -/
def overlapExists (cable channel : List Int) : Prop :=
  ∃ c ∈ uniqueCables cable, ∃ c2 ∈ uniqueCables cable,
    c2 ≠ c ∧ cableChanMin cable channel c2 < cableChanMax cable channel c ∧
      cableChanMax cable channel c2 > cableChanMin cable channel c

instance (cable channel : List Int) : Decidable (overlapExists cable channel) := by
  unfold overlapExists; infer_instance

/-- Error conditions raised by the grid-override engine: the four
`GridOverride*` exceptions from `mdio.segy.exceptions`, plus the plain
Python `IndexError`/`TypeError` the code can run into. -/
inductive GridErr
  | incompatible (cmd other : String)
  | missingKeys (cmd : String)
  | missingParameter (cmd : String)
  | unknownOverride (name : String)
  | indexError
  | typeError
deriving DecidableEq

/-- Model of `GridOverrideCommand.check_required_keys`. -/
def check_required_keys (name : String) (rk : List String) (h : Headers) :
    Except GridErr Unit :=
  if rk.all (fun k => (hkeys h).contains k) then .ok () else .error (.missingKeys name)

/-- Model of `GridOverrideCommand.check_required_params` (`none` models
`required_parameters is None`, which returns immediately). -/
def check_required_params (name : String) (rp : Option (List String)) (g : Request) :
    Except GridErr Unit :=
  match rp with
  | none => .ok ()
  | some ps =>
    if ps.all (fun k => hasKey g k) then .ok () else .error (.missingParameter name)

/-- Model of `DuplicateIndex.validate`: `required_keys` and
`required_parameters` are both `None`, so only the incompatibility checks
can fail. -/
def DuplicateIndex_validate (g : Request) : Except GridErr Unit :=
  if hasKey g "ChannelWrap" then .error (.incompatible "DuplicateIndex" "ChannelWrap")
  else if hasKey g "CalculateCable" then
    .error (.incompatible "DuplicateIndex" "CalculateCable")
  else .ok ()

/-- NonBinned inherits `DuplicateIndex.validate`; through dynamic dispatch
its `required_parameters` set containing `chunksize` is checked. -/
def NonBinned_validate (g : Request) : Except GridErr Unit :=
  if hasKey g "ChannelWrap" then .error (.incompatible "NonBinned" "ChannelWrap")
  else if hasKey g "CalculateCable" then
    .error (.incompatible "NonBinned" "CalculateCable")
  else check_required_params "NonBinned" (some ["chunksize"]) g

/-- Model of `AutoChannelWrap.validate`. -/
def AutoChannelWrap_validate (h : Headers) (g : Request) : Except GridErr Unit :=
  if hasKey g "ChannelWrap" then .error (.incompatible "AutoChannelWrap" "ChannelWrap")
  else if hasKey g "CalculateCable" then
    .error (.incompatible "AutoChannelWrap" "CalculateCable")
  else check_required_keys "AutoChannelWrap" ["shot_point", "cable", "channel"] h

/-- Model of `ChannelWrap.validate` (the source reports the incompatibility
against the literal name `AutoCableChannel`). -/
def ChannelWrap_validate (h : Headers) (g : Request) : Except GridErr Unit :=
  if hasKey g "AutoChannelWrap" then
    .error (.incompatible "ChannelWrap" "AutoCableChannel")
  else do
    let _ ← check_required_keys "ChannelWrap" ["shot_point", "cable", "channel"] h
    check_required_params "ChannelWrap" (some ["ChannelsPerCable"]) g

/-- Model of `CalculateCable.validate`. -/
def CalculateCable_validate (h : Headers) (g : Request) : Except GridErr Unit :=
  if hasKey g "AutoChannelWrap" then
    .error (.incompatible "CalculateCable" "AutoCableChannel")
  else do
    let _ ← check_required_keys "CalculateCable" ["shot_point", "cable", "channel"] h
    check_required_params "CalculateCable" (some ["ChannelsPerCable"]) g

/-- Floor modulus of numpy integer arrays: Python/numpy `%` follows floor
semantics, and `x % 0` on a numpy integer array yields 0 (with a runtime
warning), unlike scalar Python `%` which raises. -/
def npFmod (a b : Int) : Int := if b = 0 then 0 else Int.fmod a b

/-- Floor division of numpy integer arrays; `x // 0` yields 0 (with a
warning). -/
def npFdiv (a b : Int) : Int := if b = 0 then 0 else Int.fdiv a b

/-- Model of `ChannelWrap.transform`: validate, then
`channel = (channel - 1) % channels_per_cable + 1`. -/
def ChannelWrap_transform (h : Headers) (g : Request) : Except GridErr Headers :=
  match ChannelWrap_validate h g with
  | .error e => .error e
  | .ok _ =>
    let cpc := (lookupVal g "ChannelsPerCable").getD 0
    let channel := (hlookup h "channel").getD []
    .ok (hset h "channel" (channel.map (fun x => npFmod (x - 1) cpc + 1)))

/-- Model of `CalculateCable.transform`: validate, then
`cable = (channel - 1) // channels_per_cable + 1`. -/
def CalculateCable_transform (h : Headers) (g : Request) : Except GridErr Headers :=
  match CalculateCable_validate h g with
  | .error e => .error e
  | .ok _ =>
    let cpc := (lookupVal g "ChannelsPerCable").getD 0
    let channel := (hlookup h "channel").getD []
    .ok (hset h "cable" (channel.map (fun x => npFdiv (x - 1) cpc + 1)))

/-- The channel-rewriting loop of `AutoChannelWrap.transform`: when the
geometry is type B, for each unique cable the channel entries on that cable
are shifted by `- cable_chan_min + 1`; the per-cable minima are the ones
computed from the original channel array before the loop starts. -/
def autoChannelWrapChannels (cable channel : List Int) : List Int :=
  if streamerGeomType cable channel = StreamerShotGeometryType.B then
    (uniqueCables cable).foldl
      (fun ch c =>
        (cable.zip ch).map
          (fun p => if p.1 = c then p.2 - cableChanMin cable channel c + 1 else p.2))
      channel
  else channel

/-- Model of `AutoChannelWrap.transform`. -/
def AutoChannelWrap_transform (h : Headers) (g : Request) : Except GridErr Headers :=
  match AutoChannelWrap_validate h g with
  | .error e => .error e
  | .ok _ =>
    let cable := (hlookup h "cable").getD []
    let channel := (hlookup h "channel").getD []
    .ok (hset h "channel" (autoChannelWrapChannels cable channel))

-- dictionary lemmas

/-- Concrete header set used for claims about `ChannelWrap`/`CalculateCable`. -/
def hC5 : Headers := [("shot_point", [1]), ("cable", [1]), ("channel", [5])]

/-- Concrete header set exercising AutoChannelWrap: two cables with disjoint
channel ranges (type B). -/
def hC2 : Headers :=
  [("shot_point", [1, 1, 1, 1]), ("cable", [1, 1, 2, 2]), ("channel", [5, 6, 25, 26])]

/-- Two's-complement cast of a Python int into a numpy `int16` slot: numpy
1.x array item assignment wraps out-of-range values modulo 2^16. -/
def wrap16 (v : Int) : Int := (v + 32768) % 65536 - 32768

/-- The grouping headers of `analyze_non_indexed_headers`: every key except
`trace`, in dict insertion order. -/
def groupingNames (h : Headers) : List String :=
  (hkeys h).filter (fun k => k ≠ "trace")

/-- Length of the `zip` over the grouping arrays (Python `zip` stops at the
shortest iterator; with the length-N invariant this is N). -/
def minLenOf (h : Headers) (names : List String) : Nat :=
  match names with
  | [] => 0
  | n :: rest =>
    rest.foldl (fun m n2 => min m ((hlookup h n2).getD []).length)
      ((hlookup h n).getD []).length

/-- The tuple `idx_values` of grouping-header values of trace `i`. -/
def tupleRow (h : Headers) (names : List String) (i : Nat) : List Int :=
  names.map (fun n => ((hlookup h n).getD []).getD i 0)

/-- All per-trace grouping tuples, in original file order. -/
def groupRows (h : Headers) (names : List String) : List (List Int) :=
  (List.range (minLenOf h names)).map (tupleRow h names)

/-- The `create_counter`/`create_trace_index` walk. The nested dictionary
counter pre-creates a zero leaf for every combination of per-header unique
values, so every observed tuple path exists with initial count 0; it is
modelled as a total count function updated along the walk. Emits the
post-increment count for each trace in file order. -/
def countTuples (f : List Int → Int) : List (List Int) → List Int
  | [] => []
  | k :: rest =>
    (f k + 1) :: countTuples (fun k2 => if k2 = k then f k + 1 else f k2) rest

/-- Model of `analyze_non_indexed_headers`: builds the counter over the
grouping headers and stores the per-group running count into a new `trace`
header of dtype `dtypeCast` (`np.int16` unless a caller overrides it). With
no grouping headers, `create_trace_index` hits `header_names[0]` and raises
`IndexError` before the depth-0 early return. -/
def analyze_non_indexed_headers (h : Headers) (dtypeCast : Int → Int) :
    Except GridErr Headers :=
  if groupingNames h = [] then .error .indexError
  else
    .ok (hset h "trace"
      ((countTuples (fun _ => 0) (groupRows h (groupingNames h))).map dtypeCast))

/-- Model of `DuplicateIndex.transform`: validate, then auto-index with the
default dtype. -/
def DuplicateIndex_transform (h : Headers) (g : Request) : Except GridErr Headers :=
  match DuplicateIndex_validate g with
  | .error e => .error e
  | .ok _ => analyze_non_indexed_headers h wrap16

/-- Model of `NonBinned.transform`, inherited from `DuplicateIndex` but
dispatching `NonBinned`'s validation. -/
def NonBinned_transform (h : Headers) (g : Request) : Except GridErr Headers :=
  match NonBinned_validate g with
  | .error e => .error e
  | .ok _ => analyze_non_indexed_headers h wrap16

-- counting lemmas

/-- The file-ordered tuple rows the auto-indexer groups by. -/
def autoIndexRows (h : Headers) : List (List Int) :=
  groupRows h (groupingNames h)

-- getD helper lemmas over arbitrary element types

/-- A header set whose single duplicate group holds 32768 traces: every
trace shares `shot_point = 0`. -/
def bigGroupHeaders : Headers := [("shot_point", List.replicate 32768 0)]

/-- The closed set of grid-override command variants registered in
`GridOverrider.__init__`. -/
inductive Command
  | duplicateIndex
  | nonBinned
  | autoChannelWrap
  | channelWrap
  | calculateCable
deriving DecidableEq

/-- Polymorphic `validate` dispatch. -/
def Command.validate : Command → Headers → Request → Except GridErr Unit
  | .duplicateIndex, _, g => DuplicateIndex_validate g
  | .nonBinned, _, g => NonBinned_validate g
  | .autoChannelWrap, h, g => AutoChannelWrap_validate h g
  | .channelWrap, h, g => ChannelWrap_validate h g
  | .calculateCable, h, g => CalculateCable_validate h g

/-- Polymorphic `transform` dispatch. -/
def Command.transform : Command → Headers → Request → Except GridErr Headers
  | .duplicateIndex, h, g => DuplicateIndex_transform h g
  | .nonBinned, h, g => NonBinned_transform h g
  | .autoChannelWrap, h, g => AutoChannelWrap_transform h g
  | .channelWrap, h, g => ChannelWrap_transform h g
  | .calculateCable, h, g => CalculateCable_transform h g

/-- Model of `transform_index_names`: only DuplicateIndex/NonBinned append
`trace`. -/
def Command.transformIndexNames : Command → List String → List String
  | .duplicateIndex, names => names ++ ["trace"]
  | .nonBinned, names => names ++ ["trace"]
  | _, names => names

/-- Python `list.insert(-1, x)`: inserts `x` just before the last element
(at position 0 when the list is empty). -/
def insertPenult (x : Int) : List Int → List Int
  | [] => [x]
  | [a] => [x, a]
  | a :: b :: rest => a :: insertPenult x (b :: rest)

/-- Model of `transform_chunksize`: DuplicateIndex inserts chunk size 1
before the last (sample) dimension, NonBinned inserts the caller-supplied
`chunksize` parameter; both call `list(chunksize)` first, which raises
`TypeError` when the chunk-shape argument was left as `None`. The other
commands are no-ops. -/
def Command.transformChunksize :
    Command → Option (List Int) → Request → Except GridErr (Option (List Int))
  | .duplicateIndex, ck, _ =>
    match ck with
    | none => .error .typeError
    | some l => .ok (some (insertPenult 1 l))
  | .nonBinned, ck, g =>
    match ck with
    | none => .error .typeError
    | some l => .ok (some (insertPenult ((lookupVal g "chunksize").getD 0) l))
  | _, ck, _ => .ok ck

/-- The engine's command registry `self.commands` (name to command). -/
def commandName? (k : String) : Option Command :=
  if k = "AutoChannelWrap" then some .autoChannelWrap
  else if k = "CalculateCable" then some .calculateCable
  else if k = "ChannelWrap" then some .channelWrap
  else if k = "NonBinned" then some .nonBinned
  else if k = "HasDuplicates" then some .duplicateIndex
  else none

/-- Required parameters of each command (`None` flattened to `[]`). -/
def Command.requiredParameters : Command → List String
  | .nonBinned => ["chunksize"]
  | .channelWrap => ["ChannelsPerCable"]
  | .calculateCable => ["ChannelsPerCable"]
  | _ => []

/-- Model of `GridOverrider.get_allowed_parameters`: the union of the
registered commands' required parameters. -/
def allowedParameters : List String :=
  (["AutoChannelWrap", "CalculateCable", "ChannelWrap", "NonBinned",
    "HasDuplicates"].filterMap commandName?).foldl
    (fun acc c => acc ++ c.requiredParameters) []

/-- The loop body of `GridOverrider.run`: iterate the request keys in
order; skip known parameter names; fail on unknown names; otherwise run the
command's transform (which validates first), then the index-name transform,
then the chunk-shape transform. An error carries the header dict as mutated
so far, because the numpy arrays are mutated in place and survive the
raised exception. -/
def runGo :
    List (String × Int) → Request → Headers → List String → Option (List Int) →
      Except (GridErr × Headers) (Headers × List String × Option (List Int))
  | [], _, h, names, ck => .ok (h, names, ck)
  | (k, _) :: rest, full, h, names, ck =>
    if k ∈ allowedParameters then runGo rest full h names ck
    else
      match commandName? k with
      | none => .error (.unknownOverride k, h)
      | some c =>
        match c.transform h full with
        | .error e => .error (e, h)
        | .ok h1 =>
          match c.transformChunksize ck full with
          | .error e => .error (e, h1)
          | .ok ck1 => runGo rest full h1 (c.transformIndexNames names) ck1

/-- Model of `GridOverrider.run`. -/
def GridOverrider_run (h : Headers) (names : List String) (g : Request)
    (ck : Option (List Int)) :
    Except (GridErr × Headers) (Headers × List String × Option (List Int)) :=
  runGo g g h names ck

/-- True exactly on the IncompatibleOverrides error kind. -/
def GridErr.isIncompatible : GridErr → Bool
  | .incompatible _ _ => true
  | _ => false

-- engine lemmas

/-- Concrete header set for the C7 witness. -/
def hC7 : Headers := [("shot_point", [1]), ("cable", [1]), ("channel", [1])]

/-- Request for the C7 witness: AutoChannelWrap succeeds first, then
NonBinned fails validation with MissingParameter (no `chunksize`). -/
def reqC7 : Request := [("AutoChannelWrap", 1), ("NonBinned", 1)]

/-- Headers with contiguous, unwrapped absolute channels `1..4` over two
cables of 2 channels each; the cable array is the absolute assignment. -/
def hC4 : Headers :=
  [("shot_point", [1, 1, 1, 1]), ("cable", [1, 1, 2, 2]), ("channel", [1, 2, 3, 4])]

/-- Request applying ChannelWrap first and CalculateCable second. -/
def gC4 : Request :=
  [("ChannelWrap", 1), ("CalculateCable", 1), ("ChannelsPerCable", 2)]

/-- The header keys each command's transform writes (DuplicateIndex and
NonBinned add `trace`; Auto/ChannelWrap rewrite `channel`; CalculateCable
overwrites `cable`). -/
def writtenKeys : Command → List String
  | .duplicateIndex => ["trace"]
  | .nonBinned => ["trace"]
  | .autoChannelWrap => ["channel"]
  | .channelWrap => ["channel"]
  | .calculateCable => ["cable"]

-- ================= proofs =================

lemma foldl_setA_inner (c : Int) (q : Int → Prop) [DecidablePred q]
    (l : List Int) (g0 : StreamerShotGeometryType) :
    l.foldl (fun g2 c2 => if c2 = c then g2
      else if q c2 then StreamerShotGeometryType.A else g2) g0
    = if ∃ x ∈ l, x ≠ c ∧ q x then StreamerShotGeometryType.A else g0 := by
  induction l generalizing g0 with
  | nil => simp
  | cons a l ih =>
    simp only [List.foldl_cons, ih, List.mem_cons]
    by_cases hac : a = c
    · subst hac
      simp only [if_pos rfl]
      by_cases hex : ∃ x ∈ l, x ≠ a ∧ q x
      · simp [hex]
      · simp only [if_neg hex]
        have : ¬ ∃ x, (x = a ∨ x ∈ l) ∧ x ≠ a ∧ q x := by
          rintro ⟨x, hx, hxa, hq⟩
          rcases hx with rfl | hx
          · exact hxa rfl
          · exact hex ⟨x, hx, hxa, hq⟩
        simp [this]
    · simp only [if_neg hac]
      by_cases hq : q a
      · have hex : ∃ x, (x = a ∨ x ∈ l) ∧ x ≠ c ∧ q x := ⟨a, Or.inl rfl, hac, hq⟩
        simp only [if_pos hq, if_pos hex]
        by_cases hex2 : ∃ x ∈ l, x ≠ c ∧ q x
        · simp [hex2, hac, hq]
        · simp [hex2, hac, hq]
      · simp only [if_neg hq]
        by_cases hex2 : ∃ x ∈ l, x ≠ c ∧ q x
        · have : ∃ x, (x = a ∨ x ∈ l) ∧ x ≠ c ∧ q x :=
            let ⟨x, hx, hxc, hqx⟩ := hex2; ⟨x, Or.inr hx, hxc, hqx⟩
          simp [hex2, this]
        · have : ¬ ∃ x, (x = a ∨ x ∈ l) ∧ x ≠ c ∧ q x := by
            rintro ⟨x, hx, hxc, hqx⟩
            rcases hx with rfl | hx
            · exact hq hqx
            · exact hex2 ⟨x, hx, hxc, hqx⟩
          simp [hex2, this]

lemma foldl_setA_outer (p : Int → Prop) [DecidablePred p]
    (l : List Int) (g0 : StreamerShotGeometryType) :
    l.foldl (fun g c => if p c then StreamerShotGeometryType.A else g) g0
    = if ∃ c ∈ l, p c then StreamerShotGeometryType.A else g0 := by
  induction l generalizing g0 with
  | nil => simp
  | cons a l ih =>
    simp only [List.foldl_cons, ih, List.mem_cons]
    by_cases hp : p a
    · have : ∃ c, (c = a ∨ c ∈ l) ∧ p c := ⟨a, Or.inl rfl, hp⟩
      by_cases hex : ∃ c ∈ l, p c
      · simp [hp, hex, this]
      · simp [hp, hex, this]
    · by_cases hex : ∃ c ∈ l, p c
      · have : ∃ c, (c = a ∨ c ∈ l) ∧ p c :=
          let ⟨c, hc, hpc⟩ := hex; ⟨c, Or.inr hc, hpc⟩
        simp [hp, hex, this]
      · have : ¬ ∃ c, (c = a ∨ c ∈ l) ∧ p c := by
          rintro ⟨c, hc, hpc⟩
          rcases hc with rfl | hc
          · exact hp hpc
          · exact hex ⟨c, hc, hpc⟩
        simp [hp, hex, this]

lemma streamerGeomType_eq (cable channel : List Int) :
    streamerGeomType cable channel
    = if overlapExists cable channel then StreamerShotGeometryType.A
      else StreamerShotGeometryType.B := by
  unfold streamerGeomType overlapExists
  have hinner : ∀ g0 c,
      (uniqueCables cable).foldl
        (fun g2 c2 => if c2 = c then g2
          else
            if cableChanMin cable channel c2 < cableChanMax cable channel c ∧
                cableChanMax cable channel c2 > cableChanMin cable channel c then
              StreamerShotGeometryType.A
            else g2) g0
      = if ∃ x ∈ uniqueCables cable, x ≠ c ∧
            (cableChanMin cable channel x < cableChanMax cable channel c ∧
              cableChanMax cable channel x > cableChanMin cable channel c) then
          StreamerShotGeometryType.A
        else g0 := by
    intro g0 c
    exact foldl_setA_inner c
      (fun x => cableChanMin cable channel x < cableChanMax cable channel c ∧
        cableChanMax cable channel x > cableChanMin cable channel c)
      (uniqueCables cable) g0
  calc (uniqueCables cable).foldl
        (fun g c =>
          (uniqueCables cable).foldl
            (fun g2 c2 =>
              if c2 = c then g2
              else
                if cableChanMin cable channel c2 < cableChanMax cable channel c ∧
                    cableChanMax cable channel c2 > cableChanMin cable channel c then
                  StreamerShotGeometryType.A
                else g2)
            g)
        StreamerShotGeometryType.B
      = (uniqueCables cable).foldl
        (fun g c =>
          if ∃ x ∈ uniqueCables cable, x ≠ c ∧
              (cableChanMin cable channel x < cableChanMax cable channel c ∧
                cableChanMax cable channel x > cableChanMin cable channel c) then
            StreamerShotGeometryType.A
          else g)
        StreamerShotGeometryType.B := by
        apply List.foldl_ext
        intro g c _
        exact hinner g c
    _ = _ := by
        rw [foldl_setA_outer]

-- facts about np.min / np.max over nonempty arrays

lemma foldl_min_le_init (xs : List Int) (b : Int) : xs.foldl min b ≤ b := by
  induction xs generalizing b with
  | nil => simp
  | cons x xs ih =>
    simpa using le_trans (ih (min b x)) (min_le_left b x)

lemma foldl_min_le_of_mem {a : Int} (xs : List Int) (b : Int) (ha : a ∈ xs) :
    xs.foldl min b ≤ a := by
  induction xs generalizing b with
  | nil => cases ha
  | cons x xs ih =>
    rcases List.mem_cons.mp ha with rfl | ha
    · exact le_trans (foldl_min_le_init xs (min b a)) (min_le_right b a)
    · exact ih (min b x) ha

lemma foldl_min_mem (xs : List Int) (b : Int) :
    xs.foldl min b = b ∨ xs.foldl min b ∈ xs := by
  induction xs generalizing b with
  | nil => left; rfl
  | cons x xs ih =>
    rcases ih (min b x) with h | h
    · rcases min_choice b x with hm | hm
      · left; rw [List.foldl_cons, h, hm]
      · right; rw [List.foldl_cons, h, hm]; exact List.mem_cons_self x xs
    · right; exact List.mem_cons_of_mem _ h

lemma listMin_le {a : Int} {l : List Int} (ha : a ∈ l) : listMin l ≤ a := by
  cases l with
  | nil => cases ha
  | cons x xs =>
    rcases List.mem_cons.mp ha with rfl | ha
    · exact foldl_min_le_init xs a
    · exact foldl_min_le_of_mem xs x ha

lemma listMin_mem {l : List Int} (hl : l ≠ []) : listMin l ∈ l := by
  cases l with
  | nil => exact absurd rfl hl
  | cons x xs =>
    rcases foldl_min_mem xs x with h | h
    · simp [listMin, h]
    · exact List.mem_cons_of_mem _ h

lemma foldl_max_ge_init (xs : List Int) (b : Int) : b ≤ xs.foldl max b := by
  induction xs generalizing b with
  | nil => simp
  | cons x xs ih =>
    simpa using le_trans (le_max_left b x) (ih (max b x))

lemma foldl_max_ge_of_mem {a : Int} (xs : List Int) (b : Int) (ha : a ∈ xs) :
    a ≤ xs.foldl max b := by
  induction xs generalizing b with
  | nil => cases ha
  | cons x xs ih =>
    rcases List.mem_cons.mp ha with rfl | ha
    · exact le_trans (le_max_right b a) (foldl_max_ge_init xs (max b a))
    · exact ih (max b x) ha

lemma listMax_ge {a : Int} {l : List Int} (ha : a ∈ l) : a ≤ listMax l := by
  cases l with
  | nil => cases ha
  | cons x xs =>
    rcases List.mem_cons.mp ha with rfl | ha
    · exact foldl_max_ge_init xs a
    · exact foldl_max_ge_of_mem xs x ha

lemma foldl_min_map_add (xs : List Int) (b k : Int) :
    (xs.map (fun x => x + k)).foldl min (b + k) = xs.foldl min b + k := by
  induction xs generalizing b with
  | nil => rfl
  | cons x xs ih =>
    simp only [List.map_cons, List.foldl_cons]
    rw [min_add_add_right]
    exact ih (min b x)

lemma listMin_map_add {l : List Int} (k : Int) (hl : l ≠ []) :
    listMin (l.map (fun x => x + k)) = listMin l + k := by
  cases l with
  | nil => exact absurd rfl hl
  | cons x xs => simp [listMin, foldl_min_map_add]

-- facts about per-cable channel selections

lemma mem_uniqueCables {c : Int} {cable : List Int} :
    c ∈ uniqueCables cable ↔ c ∈ cable := by
  unfold uniqueCables
  rw [(List.perm_insertionSort (· ≤ ·) cable.dedup).mem_iff, List.mem_dedup]

lemma nodup_uniqueCables (cable : List Int) : (uniqueCables cable).Nodup :=
  ((List.perm_insertionSort (· ≤ ·) cable.dedup).nodup_iff).mpr (List.nodup_dedup cable)

lemma cableChans_ne_nil {cable channel : List Int} {c : Int}
    (hlen : cable.length = channel.length) (hc : c ∈ cable) :
    cableChans cable channel c ≠ [] := by
  induction cable generalizing channel with
  | nil => cases hc
  | cons a cs ih =>
    cases channel with
    | nil => simp at hlen
    | cons b ch =>
      simp only [cableChans, List.zip_cons_cons, List.filterMap_cons]
      by_cases hac : a = c
      · simp [hac]
      · rcases List.mem_cons.mp hc with rfl | hc
        · exact absurd rfl hac
        · simp only [if_neg hac]
          exact ih (Nat.succ_injective hlen) hc

/-- C1: for equal-length integer `cable`/`channel` arrays,
`analyze_streamer_headers` classifies type B whenever the per-cable channel
intervals are pairwise non-overlapping, classifies type A whenever some pair
of distinct cables satisfies `min2 < max1` and `max2 > min1`, and never
returns type C. -/
theorem C1_streamer_classification (h : Headers) (cable channel : List Int)
    (hcab : hlookup h "cable" = some cable)
    (hchan : hlookup h "channel" = some channel)
    (_hlen : cable.length = channel.length) :
    (analyze_streamer_headers h).2.2.2 ≠ StreamerShotGeometryType.C
    ∧ ((∀ c ∈ uniqueCables cable, ∀ c2 ∈ uniqueCables cable, c ≠ c2 →
          cableChanMax cable channel c < cableChanMin cable channel c2 ∨
          cableChanMax cable channel c2 < cableChanMin cable channel c) →
        (analyze_streamer_headers h).2.2.2 = StreamerShotGeometryType.B)
    ∧ ((∃ c ∈ uniqueCables cable, ∃ c2 ∈ uniqueCables cable, c2 ≠ c ∧
          cableChanMin cable channel c2 < cableChanMax cable channel c ∧
          cableChanMax cable channel c2 > cableChanMin cable channel c) →
        (analyze_streamer_headers h).2.2.2 = StreamerShotGeometryType.A) := by
  have hgeom : (analyze_streamer_headers h).2.2.2 = streamerGeomType cable channel := by
    simp [analyze_streamer_headers, hcab, hchan]
  rw [hgeom, streamerGeomType_eq]
  refine ⟨?_, ?_, ?_⟩
  · by_cases hov : overlapExists cable channel
    · simp [hov]
    · simp [hov]
  · intro hdisj
    have hov : ¬ overlapExists cable channel := by
      rintro ⟨c, hc, c2, hc2, hne, h1, h2⟩
      rcases hdisj c hc c2 hc2 (Ne.symm hne) with hlt | hlt
      · exact absurd (lt_trans h1 hlt) (lt_irrefl _)
      · exact absurd (lt_trans h2 hlt) (lt_irrefl _)
    simp [hov]
  · intro hov
    have : overlapExists cable channel := hov
    simp [this]

/-- Witness for C1 at the spec's example: cables `{1,2}` with channel
ranges `[1,2]` and `[21,22]`. -/
theorem C1_streamer_classification_witness :
    hlookup [("cable", [1, 1, 2, 2]), ("channel", [1, 2, 21, 22])] "cable"
      = some [1, 1, 2, 2]
    ∧ ((analyze_streamer_headers
          [("cable", [1, 1, 2, 2]), ("channel", [1, 2, 21, 22])]).2.2.2
        ≠ StreamerShotGeometryType.C
      ∧ ((∀ c ∈ uniqueCables [1, 1, 2, 2], ∀ c2 ∈ uniqueCables [1, 1, 2, 2], c ≠ c2 →
            cableChanMax [1, 1, 2, 2] [1, 2, 21, 22] c
              < cableChanMin [1, 1, 2, 2] [1, 2, 21, 22] c2 ∨
            cableChanMax [1, 1, 2, 2] [1, 2, 21, 22] c2
              < cableChanMin [1, 1, 2, 2] [1, 2, 21, 22] c) →
          (analyze_streamer_headers
            [("cable", [1, 1, 2, 2]), ("channel", [1, 2, 21, 22])]).2.2.2
            = StreamerShotGeometryType.B)
      ∧ ((∃ c ∈ uniqueCables [1, 1, 2, 2], ∃ c2 ∈ uniqueCables [1, 1, 2, 2], c2 ≠ c ∧
            cableChanMin [1, 1, 2, 2] [1, 2, 21, 22] c2
              < cableChanMax [1, 1, 2, 2] [1, 2, 21, 22] c ∧
            cableChanMax [1, 1, 2, 2] [1, 2, 21, 22] c2
              > cableChanMin [1, 1, 2, 2] [1, 2, 21, 22] c) →
          (analyze_streamer_headers
            [("cable", [1, 1, 2, 2]), ("channel", [1, 2, 21, 22])]).2.2.2
            = StreamerShotGeometryType.A)) :=
  ⟨rfl, C1_streamer_classification _ [1, 1, 2, 2] [1, 2, 21, 22] rfl rfl rfl⟩

lemma hlookup_hset_self (h : Headers) (k : String) (v : List Int) :
    hlookup (hset h k v) k = some v := by
  induction h with
  | nil => simp [hset, hlookup]
  | cons p rest ih =>
    by_cases hp : p.1 = k
    · simp [hset, hp, hlookup]
    · simp only [hset, if_neg hp, hlookup, if_neg hp]
      exact ih

lemma hlookup_hset_ne (h : Headers) (k : String) (v : List Int) (k' : String)
    (hne : k' ≠ k) : hlookup (hset h k v) k' = hlookup h k' := by
  induction h with
  | nil =>
    have hkk : ¬ k = k' := fun hh => hne hh.symm
    simp [hset, hlookup, hkk]
  | cons p rest ih =>
    by_cases hp : p.1 = k
    · have hpk : ¬ p.1 = k' := fun hh => hne (by rw [← hh, hp])
      have hkk : ¬ k = k' := fun hh => hne hh.symm
      simp [hset, hp, hlookup, hpk, hkk]
    · by_cases hpk : p.1 = k'
      · simp [hset, if_neg hp, hlookup, hpk, hne]
      · simp only [hset, if_neg hp, hlookup, if_neg hpk]
        exact ih

lemma mem_hset {p : String × List Int} {h : Headers} {k : String} {v : List Int} :
    p ∈ hset h k v → p = (k, v) ∨ p ∈ h := by
  induction h with
  | nil => intro hp; simp [hset] at hp; exact Or.inl hp
  | cons q rest ih =>
    intro hp
    by_cases hq : q.1 = k
    · simp only [hset, if_pos hq, List.mem_cons] at hp
      rcases hp with rfl | hp
      · exact Or.inl rfl
      · exact Or.inr (List.mem_cons_of_mem _ hp)
    · simp only [hset, if_neg hq, List.mem_cons] at hp
      rcases hp with rfl | hp
      · exact Or.inr (List.mem_cons_self _ _)
      · rcases ih hp with h1 | h1
        · exact Or.inl h1
        · exact Or.inr (List.mem_cons_of_mem _ h1)

lemma hkeys_mem_hset {h : Headers} {k : String} {v : List Int} {k' : String}
    (hk : k' ∈ hkeys h) : k' ∈ hkeys (hset h k v) := by
  induction h with
  | nil => cases hk
  | cons q rest ih =>
    simp only [hkeys, List.map_cons, List.mem_cons] at hk
    by_cases hq : q.1 = k
    · simp only [hset, if_pos hq, hkeys, List.map_cons, List.mem_cons]
      rcases hk with rfl | hk
      · left; exact hq
      · right; exact hk
    · simp only [hset, if_neg hq, hkeys, List.map_cons, List.mem_cons]
      rcases hk with rfl | hk
      · left; rfl
      · right; exact ih hk

lemma hlookup_mem {h : Headers} {k : String} {arr : List Int}
    (hl : hlookup h k = some arr) : (k, arr) ∈ h := by
  induction h with
  | nil => simp [hlookup] at hl
  | cons p rest ih =>
    by_cases hp : p.1 = k
    · simp only [hlookup, if_pos hp, Option.some.injEq] at hl
      have hpe : (k, arr) = p := by
        rw [← hp, ← hl]
      rw [hpe]
      exact List.mem_cons_self _ _
    · simp only [hlookup, if_neg hp] at hl
      exact List.mem_cons_of_mem _ (ih hl)

lemma hlookup_of_mem_hkeys {h : Headers} {k : String} (hk : k ∈ hkeys h) :
    ∃ arr, hlookup h k = some arr := by
  induction h with
  | nil => cases hk
  | cons p rest ih =>
    by_cases hp : p.1 = k
    · exact ⟨p.2, by simp [hlookup, hp]⟩
    · simp only [hkeys, List.map_cons, List.mem_cons] at hk
      rcases hk with rfl | hk
      · exact absurd rfl hp
      · simpa [hlookup, hp] using ih hk

lemma hasKey_iff {g : Request} {k : String} :
    hasKey g k = true ↔ k ∈ g.map Prod.fst := by
  induction g with
  | nil => simp [hasKey]
  | cons p rest ih =>
    by_cases hp : p.1 = k
    · simp [hasKey, hp]
    · simp only [hasKey, if_neg hp, List.map_cons, List.mem_cons, ih]
      constructor
      · exact Or.inr
      · rintro (h1 | h1)
        · exact absurd h1.symm hp
        · exact h1

/-- C5 (amended): for every nonzero `ChannelsPerCable` value, `ChannelWrap`
rewrites every channel entry to `(channel - 1) % cpc + 1` and
`CalculateCable` overwrites every cable entry with `(channel - 1) // cpc + 1`
(floor division/modulus, the Python/numpy semantics). -/
theorem C5_channel_and_cable_rewrite
    (h h1 h2 : Headers) (g : Request) (cpc : Int) (ch : List Int)
    (hcpc : lookupVal g "ChannelsPerCable" = some cpc)
    (hne : cpc ≠ 0)
    (hch : hlookup h "channel" = some ch)
    (hok1 : ChannelWrap_transform h g = Except.ok h1)
    (hok2 : CalculateCable_transform h g = Except.ok h2) :
    hlookup h1 "channel" = some (ch.map (fun x => Int.fmod (x - 1) cpc + 1))
    ∧ hlookup h2 "cable" = some (ch.map (fun x => Int.fdiv (x - 1) cpc + 1)) := by
  constructor
  · unfold ChannelWrap_transform at hok1
    split at hok1
    · simp at hok1
    · simp only [Except.ok.injEq] at hok1
      subst hok1
      rw [hlookup_hset_self]
      simp only [hch, hcpc, Option.getD_some, npFmod, if_neg hne]
  · unfold CalculateCable_transform at hok2
    split at hok2
    · simp at hok2
    · simp only [Except.ok.injEq] at hok2
      subst hok2
      rw [hlookup_hset_self]
      simp only [hch, hcpc, Option.getD_some, npFdiv, if_neg hne]

/-- Witness for C5 with `ChannelsPerCable = 2` on channel array `[5]`:
the wrapped channel is `[1]`, the derived cable is `[3]`. -/
theorem C5_channel_and_cable_rewrite_witness :
    hlookup [("shot_point", [1]), ("cable", [1]), ("channel", [1])] "channel"
      = some ([5].map (fun x => Int.fmod (x - 1) 2 + 1))
    ∧ hlookup [("shot_point", [1]), ("cable", [3]), ("channel", [5])] "cable"
      = some ([5].map (fun x => Int.fdiv (x - 1) 2 + 1)) :=
  C5_channel_and_cable_rewrite hC5
    [("shot_point", [1]), ("cable", [1]), ("channel", [1])]
    [("shot_point", [1]), ("cable", [3]), ("channel", [5])]
    [("ChannelsPerCable", 2)] 2 [5] rfl (by decide) rfl rfl rfl

/-- C5 counterexample: with `ChannelsPerCable = 0` the numpy arrays compute
`x % 0 = 0` and the code stores channel `[1]`, while the claimed formula
`(channel - 1) mod 0 + 1` (floor modulus) evaluates to `[5]`. -/
theorem C5_counterexample :
    ChannelWrap_transform hC5 [("ChannelsPerCable", 0)]
      = Except.ok [("shot_point", [1]), ("cable", [1]), ("channel", [1])]
    ∧ ([1] : List Int) ≠ [5].map (fun x => Int.fmod (x - 1) 0 + 1) := by
  constructor
  · rfl
  · decide

-- pointwise description of the AutoChannelWrap channel-rewriting loop

lemma zipmap_length (cable ch : List Int) (G : Int → Int → Int) :
    ((cable.zip ch).map (fun p => G p.1 p.2)).length = min cable.length ch.length := by
  rw [List.length_map, List.length_zip]

lemma zipmap_getD (cable : List Int) (G : Int → Int → Int) :
    ∀ (ch : List Int) (t : Nat), t < cable.length → t < ch.length →
      ((cable.zip ch).map (fun p => G p.1 p.2)).getD t 0
        = G (cable.getD t 0) (ch.getD t 0) := by
  induction cable with
  | nil => intro ch t ht _; cases ht
  | cons a cs ih =>
    intro ch t ht ht2
    cases ch with
    | nil => cases ht2
    | cons b cht =>
      cases t with
      | zero => simp [List.getD]
      | succ t =>
        simp only [List.zip_cons_cons, List.map_cons, List.getD_cons_succ]
        exact ih cht t (Nat.lt_of_succ_lt_succ ht) (Nat.lt_of_succ_lt_succ ht2)

lemma autoWrapFold_length (cs : List Int) (cable : List Int) (m : Int → Int) :
    ∀ ch : List Int, ch.length = cable.length →
      (cs.foldl (fun ch c => (cable.zip ch).map
        (fun p => if p.1 = c then p.2 - m c + 1 else p.2)) ch).length = cable.length := by
  induction cs with
  | nil => intro ch hch; exact hch
  | cons c cst ih =>
    intro ch hch
    simp only [List.foldl_cons]
    apply ih
    rw [List.length_map, List.length_zip, hch, Nat.min_self]

lemma autoWrapFold_getD (cs : List Int) (cable : List Int) (m : Int → Int)
    (hnd : cs.Nodup) :
    ∀ ch : List Int, ch.length = cable.length → ∀ t, t < cable.length →
      (cs.foldl (fun ch c => (cable.zip ch).map
        (fun p => if p.1 = c then p.2 - m c + 1 else p.2)) ch).getD t 0
      = if cable.getD t 0 ∈ cs then
          ch.getD t 0 - m (cable.getD t 0) + 1
        else ch.getD t 0 := by
  induction cs with
  | nil =>
    intro ch hch t ht
    simp
  | cons c cst ih =>
    intro ch hch t ht
    have hnotmem : c ∉ cst := (List.nodup_cons.mp hnd).1
    have hndt : cst.Nodup := (List.nodup_cons.mp hnd).2
    have hch1 : ((cable.zip ch).map
        (fun p => if p.1 = c then p.2 - m c + 1 else p.2)).length = cable.length := by
      rw [List.length_map, List.length_zip, hch, Nat.min_self]
    simp only [List.foldl_cons]
    rw [ih hndt _ hch1 t ht]
    have hzip : ((cable.zip ch).map
        (fun p => if p.1 = c then p.2 - m c + 1 else p.2)).getD t 0
        = if cable.getD t 0 = c then ch.getD t 0 - m c + 1 else ch.getD t 0 :=
      zipmap_getD cable (fun a b => if a = c then b - m c + 1 else b) ch t ht
        (hch ▸ ht)
    rw [hzip]
    by_cases hc : cable.getD t 0 = c
    · have hni : cable.getD t 0 ∉ cst := by rw [hc]; exact hnotmem
      rw [if_neg hni, if_pos hc,
        if_pos (show cable.getD t 0 ∈ c :: cst by rw [hc]; exact List.mem_cons_self c cst),
        hc]
    · by_cases hmem : cable.getD t 0 ∈ cst
      · rw [if_pos hmem, if_neg hc, if_pos (List.mem_cons_of_mem c hmem)]
      · have hni : cable.getD t 0 ∉ (c :: cst) := by
          rw [List.mem_cons]
          rintro (h1 | h1)
          · exact hc h1
          · exact hmem h1
        rw [if_neg hmem, if_neg hc, if_neg hni]

lemma getD_mem_of_lt (l : List Int) (t : Nat) (ht : t < l.length) :
    l.getD t 0 ∈ l := by
  rw [List.getD_eq_getElem l 0 ht]
  exact List.getElem_mem ht

lemma autoChannelWrapChannels_length (cable channel : List Int)
    (hlen : cable.length = channel.length) :
    (autoChannelWrapChannels cable channel).length = cable.length := by
  unfold autoChannelWrapChannels
  by_cases hB : streamerGeomType cable channel = StreamerShotGeometryType.B
  · rw [if_pos hB]
    exact autoWrapFold_length _ cable _ channel hlen.symm
  · rw [if_neg hB]
    exact hlen.symm

lemma autoChannelWrapChannels_getD_B (cable channel : List Int)
    (hlen : cable.length = channel.length)
    (hB : streamerGeomType cable channel = StreamerShotGeometryType.B)
    (t : Nat) (ht : t < cable.length) :
    (autoChannelWrapChannels cable channel).getD t 0
      = channel.getD t 0 - cableChanMin cable channel (cable.getD t 0) + 1 := by
  unfold autoChannelWrapChannels
  rw [if_pos hB]
  rw [autoWrapFold_getD (uniqueCables cable) cable
    (cableChanMin cable channel) (nodup_uniqueCables cable) channel hlen.symm t ht]
  have hmem : cable.getD t 0 ∈ uniqueCables cable :=
    mem_uniqueCables.mpr (getD_mem_of_lt cable t ht)
  rw [if_pos hmem]

lemma autoChannelWrapChannels_A (cable channel : List Int)
    (hA : streamerGeomType cable channel = StreamerShotGeometryType.A) :
    autoChannelWrapChannels cable channel = channel := by
  unfold autoChannelWrapChannels
  rw [if_neg (by rw [hA]; intro hc; cases hc)]

lemma cableChans_cons (a : Int) (cs : List Int) (b : Int) (cht : List Int) (c : Int) :
    cableChans (a :: cs) (b :: cht) c
      = if a = c then b :: cableChans cs cht c else cableChans cs cht c := by
  by_cases hac : a = c
  · simp [cableChans, hac]
  · simp [cableChans, hac]

lemma cableChans_zipmap (G : Int → Int → Int) (c : Int) :
    ∀ (cable ch : List Int),
      cableChans cable ((cable.zip ch).map (fun p => G p.1 p.2)) c
        = (cableChans cable ch c).map (G c) := by
  intro cable
  induction cable with
  | nil => intro ch; simp [cableChans]
  | cons a cs ih =>
    intro ch
    cases ch with
    | nil => simp [cableChans]
    | cons b cht =>
      rw [List.zip_cons_cons, List.map_cons, cableChans_cons, cableChans_cons]
      by_cases hac : a = c
      · subst hac
        rw [if_pos rfl, if_pos rfl, List.map_cons, ih cht]
      · rw [if_neg hac, if_neg hac, ih cht]

lemma autoChannelWrapChannels_eq_zipmap_B (cable channel : List Int)
    (hlen : cable.length = channel.length)
    (hB : streamerGeomType cable channel = StreamerShotGeometryType.B) :
    autoChannelWrapChannels cable channel
      = (cable.zip channel).map
          (fun p => p.2 - cableChanMin cable channel p.1 + 1) := by
  apply List.ext_getElem
  · rw [autoChannelWrapChannels_length cable channel hlen, List.length_map,
      List.length_zip, hlen, Nat.min_self]
  · intro t h1 h2
    have ht : t < cable.length := by
      rw [autoChannelWrapChannels_length cable channel hlen] at h1
      exact h1
    rw [← List.getD_eq_getElem _ 0 h1, ← List.getD_eq_getElem _ 0 h2]
    rw [autoChannelWrapChannels_getD_B cable channel hlen hB t ht]
    rw [zipmap_getD cable (fun a b => b - cableChanMin cable channel a + 1)
      channel t ht (hlen ▸ ht)]

lemma cableChanMin_after_wrap (cable channel : List Int)
    (hlen : cable.length = channel.length)
    (hB : streamerGeomType cable channel = StreamerShotGeometryType.B)
    (c : Int) (hc : c ∈ uniqueCables cable) :
    cableChanMin cable (autoChannelWrapChannels cable channel) c = 1 := by
  rw [autoChannelWrapChannels_eq_zipmap_B cable channel hlen hB]
  show listMin (cableChans cable
    ((cable.zip channel).map (fun p => p.2 - cableChanMin cable channel p.1 + 1)) c) = 1
  rw [cableChans_zipmap (fun a b => b - cableChanMin cable channel a + 1) c cable channel]
  have hne : cableChans cable channel c ≠ [] :=
    cableChans_ne_nil hlen (mem_uniqueCables.mp hc)
  have hfun : (fun b => b - cableChanMin cable channel c + 1)
      = (fun x => x + (1 - cableChanMin cable channel c)) := by
    funext x
    ring
  rw [hfun, listMin_map_add _ hne]
  show listMin (cableChans cable channel c) + (1 - cableChanMin cable channel c) = 1
  show listMin (cableChans cable channel c)
    + (1 - listMin (cableChans cable channel c)) = 1
  ring

/-- C2: when `AutoChannelWrap` classifies the geometry as type B, it rewrites
every channel entry to `channel - (that trace's cable's min channel) + 1`, so
every cable's post-transform minimum channel is exactly 1; when the
classification is type A, the channel array is left unchanged. -/
theorem C2_auto_channel_wrap (h h' : Headers) (g : Request)
    (cable channel : List Int)
    (hcab : hlookup h "cable" = some cable)
    (hch : hlookup h "channel" = some channel)
    (hlen : cable.length = channel.length)
    (hok : AutoChannelWrap_transform h g = Except.ok h') :
    (streamerGeomType cable channel = StreamerShotGeometryType.B →
      hlookup h' "channel" = some (autoChannelWrapChannels cable channel)
      ∧ (∀ t, t < cable.length →
          (autoChannelWrapChannels cable channel).getD t 0
            = channel.getD t 0 - cableChanMin cable channel (cable.getD t 0) + 1)
      ∧ (∀ c ∈ uniqueCables cable,
          cableChanMin cable (autoChannelWrapChannels cable channel) c = 1))
    ∧ (streamerGeomType cable channel = StreamerShotGeometryType.A →
        hlookup h' "channel" = some channel) := by
  have hres : h' = hset h "channel" (autoChannelWrapChannels cable channel) := by
    unfold AutoChannelWrap_transform at hok
    split at hok
    · simp at hok
    · simp only [Except.ok.injEq] at hok
      rw [← hok, hcab, hch]
      simp only [Option.getD_some]
  constructor
  · intro hB
    refine ⟨?_, ?_, ?_⟩
    · rw [hres, hlookup_hset_self]
    · intro t ht
      exact autoChannelWrapChannels_getD_B cable channel hlen hB t ht
    · intro c hc
      exact cableChanMin_after_wrap cable channel hlen hB c hc
  · intro hA
    rw [hres, hlookup_hset_self, autoChannelWrapChannels_A cable channel hA]

/-- Witness for C2: on cables `[1,1,2,2]` with channels `[5,6,25,26]` the
geometry is type B; both cables end up with minimum channel 1. -/
theorem C2_auto_channel_wrap_witness :
    (streamerGeomType [1, 1, 2, 2] [5, 6, 25, 26] = StreamerShotGeometryType.B →
      hlookup [("shot_point", [1, 1, 1, 1]), ("cable", [1, 1, 2, 2]),
          ("channel", [1, 2, 1, 2])] "channel"
        = some (autoChannelWrapChannels [1, 1, 2, 2] [5, 6, 25, 26])
      ∧ (∀ t, t < List.length [1, 1, 2, 2] →
          (autoChannelWrapChannels [1, 1, 2, 2] [5, 6, 25, 26]).getD t 0
            = List.getD [5, 6, 25, 26] t 0
              - cableChanMin [1, 1, 2, 2] [5, 6, 25, 26]
                  (List.getD [1, 1, 2, 2] t 0) + 1)
      ∧ (∀ c ∈ uniqueCables [1, 1, 2, 2],
          cableChanMin [1, 1, 2, 2]
            (autoChannelWrapChannels [1, 1, 2, 2] [5, 6, 25, 26]) c = 1))
    ∧ (streamerGeomType [1, 1, 2, 2] [5, 6, 25, 26] = StreamerShotGeometryType.A →
        hlookup [("shot_point", [1, 1, 1, 1]), ("cable", [1, 1, 2, 2]),
            ("channel", [1, 2, 1, 2])] "channel"
          = some [5, 6, 25, 26]) :=
  C2_auto_channel_wrap hC2
    [("shot_point", [1, 1, 1, 1]), ("cable", [1, 1, 2, 2]), ("channel", [1, 2, 1, 2])]
    [] [1, 1, 2, 2] [5, 6, 25, 26] rfl rfl rfl rfl

lemma countTuples_length (rows : List (List Int)) :
    ∀ f, (countTuples f rows).length = rows.length := by
  induction rows with
  | nil => intro f; rfl
  | cons k rest ih =>
    intro f
    simp only [countTuples, List.length_cons, ih]

lemma countTuples_getD (rows : List (List Int)) :
    ∀ (f : List Int → Int) (i : Nat), i < rows.length →
      (countTuples f rows).getD i 0
        = f (rows.getD i [])
          + (((rows.take (i + 1)).count (rows.getD i []) : Nat) : Int) := by
  induction rows with
  | nil => intro f i hi; cases hi
  | cons k rest ih =>
    intro f i hi
    cases i with
    | zero =>
      simp only [countTuples, List.getD_cons_zero, List.take_succ_cons,
        List.take_zero, List.count_cons, List.count_nil, beq_self_eq_true,
        if_pos rfl]
      push_cast
      ring
    | succ i =>
      have hi' : i < rest.length := Nat.lt_of_succ_lt_succ hi
      simp only [countTuples, List.getD_cons_succ, List.take_succ_cons]
      rw [ih _ i hi']
      by_cases hr : rest.getD i [] = k
      · rw [if_pos hr, List.count_cons]
        rw [if_pos (by rw [hr]; exact beq_self_eq_true k)]
        push_cast
        rw [hr]
        ring
      · rw [if_neg hr, List.count_cons]
        rw [if_neg (by simpa using (show ¬ k = rest.getD i [] from fun hh => hr hh.symm))]
        push_cast
        ring

lemma getD_mem_poly {α : Type} (l : List α) (d : α) :
    ∀ i, i < l.length → l.getD i d ∈ l := by
  induction l with
  | nil => intro i hi; cases hi
  | cons a t ih =>
    intro i hi
    cases i with
    | zero => simp [List.getD]
    | succ i =>
      rw [List.getD_cons_succ]
      exact List.mem_cons_of_mem a (ih i (Nat.lt_of_succ_lt_succ hi))

lemma getD_take_lt {α : Type} (l : List α) (d : α) :
    ∀ (n i : Nat), i < n → (l.take n).getD i d = l.getD i d := by
  induction l with
  | nil => intro n i _; simp
  | cons a t ih =>
    intro n i hin
    cases n with
    | zero => cases hin
    | succ n =>
      cases i with
      | zero => simp [List.take_succ_cons, List.getD]
      | succ i =>
        rw [List.take_succ_cons, List.getD_cons_succ, List.getD_cons_succ]
        exact ih n i (Nat.lt_of_succ_lt_succ hin)

lemma getD_drop_poly {α : Type} (l : List α) (d : α) :
    ∀ (m i : Nat), (l.drop m).getD i d = l.getD (m + i) d := by
  induction l with
  | nil => intro m i; simp
  | cons a t ih =>
    intro m i
    cases m with
    | zero => simp
    | succ m =>
      rw [List.drop_succ_cons, ih m i, Nat.succ_add, List.getD_cons_succ]

-- count lemmas used for the trace-ordinal claims

lemma count_take_pos (rows : List (List Int)) (i : Nat) (hi : i < rows.length) :
    0 < (rows.take (i + 1)).count (rows.getD i []) := by
  apply List.count_pos_iff.mpr
  have hlen : i < (rows.take (i + 1)).length := by
    rw [List.length_take]
    omega
  have := getD_mem_poly (rows.take (i + 1)) [] i hlen
  rw [getD_take_lt rows [] (i + 1) i (Nat.lt_succ_self i)] at this
  exact this

lemma count_take_le_total (rows : List (List Int)) (n : Nat) (k : List Int) :
    (rows.take n).count k ≤ rows.count k :=
  (List.take_sublist n rows).count_le k

lemma count_take_lt_of_eq (rows : List (List Int)) (i j : Nat) (hij : i < j)
    (hj : j < rows.length) (heq : rows.getD j [] = rows.getD i []) :
    (rows.take (i + 1)).count (rows.getD i [])
      < (rows.take (j + 1)).count (rows.getD i []) := by
  have hsplit : rows.take (j + 1)
      = rows.take (i + 1) ++ (rows.drop (i + 1)).take (j - i) := by
    rw [← List.take_add]
    congr 1
    omega
  rw [hsplit, List.count_append]
  have hmem : rows.getD i [] ∈ (rows.drop (i + 1)).take (j - i) := by
    have hlt : j - (i + 1) < j - i := by omega
    have hlen3 : j - (i + 1) < ((rows.drop (i + 1)).take (j - i)).length := by
      rw [List.length_take, List.length_drop]
      omega
    have hm := getD_mem_poly ((rows.drop (i + 1)).take (j - i)) [] (j - (i + 1)) hlen3
    rw [getD_take_lt (rows.drop (i + 1)) [] (j - i) (j - (i + 1)) hlt] at hm
    rw [getD_drop_poly rows [] (i + 1) (j - (i + 1))] at hm
    have hidx : i + 1 + (j - (i + 1)) = j := by omega
    rw [hidx, heq] at hm
    exact hm
  have hpos : 0 < ((rows.drop (i + 1)).take (j - i)).count (rows.getD i []) :=
    List.count_pos_iff.mpr hmem
  omega

lemma wrap16_eq_self {v : Int} (h1 : -32768 ≤ v) (h2 : v ≤ 32767) :
    wrap16 v = v := by
  unfold wrap16
  rw [Int.emod_eq_of_lt (by omega) (by omega)]
  omega

lemma getD_map_zero (f : Int → Int) (hf : f 0 = 0) (l : List Int) :
    ∀ i, (l.map f).getD i 0 = f (l.getD i 0) := by
  intro i
  induction l generalizing i with
  | nil => simp [hf]
  | cons a t ih =>
    cases i with
    | zero => simp [List.getD]
    | succ i =>
      rw [List.map_cons, List.getD_cons_succ, List.getD_cons_succ]
      exact ih i

lemma analyze_ok_char (h : Headers) (dt : Int → Int) (h' : Headers)
    (hok : analyze_non_indexed_headers h dt = Except.ok h') :
    groupingNames h ≠ []
    ∧ h' = hset h "trace" ((countTuples (fun _ => 0) (autoIndexRows h)).map dt) := by
  unfold analyze_non_indexed_headers at hok
  by_cases hg : groupingNames h = []
  · rw [if_pos hg] at hok
    exact Except.noConfusion hok
  · rw [if_neg hg] at hok
    refine ⟨hg, ?_⟩
    unfold autoIndexRows
    cases hok
    rfl

lemma wrap16_zero : wrap16 0 = 0 := by decide

/-- C3 (amended): the auto-indexer's `trace` ordinal of trace `i` is the
number of occurrences of its grouping tuple among the first `i + 1` traces,
passed through the int16 cast; whenever every group's cardinality is at most
32767 (so the int16 cast is the identity on the counts), within each group
the stored ordinals are exactly `1..k` in original file order: the value at
`i` is the running occurrence count, is at least 1, never exceeds the
group's cardinality, and strictly increases along traces of the same group
(so ordinals never repeat within a group). -/
theorem C3_trace_ordinals (h h' : Headers) (tr : List Int)
    (hok : analyze_non_indexed_headers h wrap16 = Except.ok h')
    (htr : hlookup h' "trace" = some tr)
    (hbound : ∀ k, (autoIndexRows h).count k ≤ 32767) :
    tr.length = (autoIndexRows h).length
    ∧ ∀ i, i < (autoIndexRows h).length →
        (tr.getD i 0
            = (((autoIndexRows h).take (i + 1)).count ((autoIndexRows h).getD i []) : Int)
          ∧ 1 ≤ tr.getD i 0
          ∧ tr.getD i 0 ≤ ((autoIndexRows h).count ((autoIndexRows h).getD i []) : Int)
          ∧ ∀ j, j < (autoIndexRows h).length → i < j →
              (autoIndexRows h).getD j [] = (autoIndexRows h).getD i [] →
              tr.getD i 0 < tr.getD j 0) := by
  obtain ⟨hg, hh'⟩ := analyze_ok_char h wrap16 h' hok
  have htr' : tr = (countTuples (fun _ => 0) (autoIndexRows h)).map wrap16 := by
    rw [hh', hlookup_hset_self] at htr
    exact (Option.some.injEq _ _ ▸ htr).symm
  have hval : ∀ i, i < (autoIndexRows h).length →
      tr.getD i 0
        = (((autoIndexRows h).take (i + 1)).count ((autoIndexRows h).getD i []) : Int) := by
    intro i hi
    have h1 : tr.getD i 0 = wrap16 ((countTuples (fun _ => 0) (autoIndexRows h)).getD i 0) := by
      rw [htr']
      exact getD_map_zero wrap16 wrap16_zero _ i
    rw [h1, countTuples_getD (autoIndexRows h) (fun _ => 0) i hi, zero_add]
    have hlow : 0 < ((autoIndexRows h).take (i + 1)).count ((autoIndexRows h).getD i []) :=
      count_take_pos (autoIndexRows h) i hi
    have hhigh : ((autoIndexRows h).take (i + 1)).count ((autoIndexRows h).getD i []) ≤ 32767 :=
      le_trans (count_take_le_total (autoIndexRows h) (i + 1) _)
        (hbound ((autoIndexRows h).getD i []))
    apply wrap16_eq_self
    · exact le_trans (by omega) (Int.natCast_nonneg _)
    · exact_mod_cast hhigh
  constructor
  · rw [htr', List.length_map, countTuples_length]
  · intro i hi
    refine ⟨hval i hi, ?_, ?_, ?_⟩
    · rw [hval i hi]
      have hlow : 0 < ((autoIndexRows h).take (i + 1)).count ((autoIndexRows h).getD i []) :=
        count_take_pos (autoIndexRows h) i hi
      exact_mod_cast hlow
    · rw [hval i hi]
      exact_mod_cast count_take_le_total (autoIndexRows h) (i + 1) _
    · intro j hj hij heq
      rw [hval i hi, hval j hj, heq]
      exact_mod_cast count_take_lt_of_eq (autoIndexRows h) i j hij hj heq

/-- Witness for C3 at headers `shot_point = [7, 7, 8]`: trace ordinals
`[1, 2, 1]`. -/
theorem C3_trace_ordinals_witness :
    List.length [1, 2, 1]
      = (autoIndexRows [("shot_point", [7, 7, 8])]).length
    ∧ ∀ i, i < (autoIndexRows [("shot_point", [7, 7, 8])]).length →
        (List.getD [1, 2, 1] i 0
            = (((autoIndexRows [("shot_point", [7, 7, 8])]).take (i + 1)).count
                ((autoIndexRows [("shot_point", [7, 7, 8])]).getD i []) : Int)
          ∧ (1 : Int) ≤ List.getD [1, 2, 1] i 0
          ∧ List.getD [1, 2, 1] i 0
              ≤ ((autoIndexRows [("shot_point", [7, 7, 8])]).count
                  ((autoIndexRows [("shot_point", [7, 7, 8])]).getD i []) : Int)
          ∧ ∀ j, j < (autoIndexRows [("shot_point", [7, 7, 8])]).length → i < j →
              (autoIndexRows [("shot_point", [7, 7, 8])]).getD j []
                = (autoIndexRows [("shot_point", [7, 7, 8])]).getD i [] →
              List.getD ([1, 2, 1] : List Int) i 0 < List.getD [1, 2, 1] j 0) :=
  C3_trace_ordinals [("shot_point", [7, 7, 8])]
    [("shot_point", [7, 7, 8]), ("trace", [1, 2, 1])] [1, 2, 1]
    rfl rfl (fun k => Nat.le_trans (List.count_le_length k _) (by decide))

lemma getD_replicate_poly {α : Type} (a d : α) :
    ∀ (n i : Nat), i < n → (List.replicate n a).getD i d = a := by
  intro n
  induction n with
  | zero => intro i hi; cases hi
  | succ n ih =>
    intro i hi
    cases i with
    | zero => simp [List.replicate, List.getD]
    | succ i =>
      rw [List.replicate, List.getD_cons_succ]
      exact ih i (Nat.lt_of_succ_lt_succ hi)

lemma getD_replicate_zero : ∀ (n i : Nat), (List.replicate n (0 : Int)).getD i 0 = 0 := by
  intro n i
  by_cases hi : i < n
  · exact getD_replicate_poly 0 0 n i hi
  · apply List.getD_eq_default
    rw [List.length_replicate]
    omega

lemma hlookup_big : hlookup bigGroupHeaders "shot_point" = some (List.replicate 32768 0) :=
  rfl

lemma autoIndexRows_big : autoIndexRows bigGroupHeaders = List.replicate 32768 [0] := by
  have h1 : groupingNames bigGroupHeaders = ["shot_point"] := rfl
  unfold autoIndexRows groupRows
  rw [h1]
  have h2 : minLenOf bigGroupHeaders ["shot_point"] = 32768 := by
    simp only [minLenOf]
    rw [List.foldl_nil, hlookup_big, Option.getD_some, List.length_replicate]
  rw [h2]
  have h3 : ∀ i ∈ List.range 32768, tupleRow bigGroupHeaders ["shot_point"] i
      = (fun _ => ([0] : List Int)) i := by
    intro i _
    show [((hlookup bigGroupHeaders "shot_point").getD []).getD i 0] = [0]
    rw [hlookup_big, Option.getD_some, getD_replicate_zero]
  rw [List.map_congr_left h3, List.map_const', List.length_range]

lemma analyze_big_eq :
    analyze_non_indexed_headers bigGroupHeaders wrap16
      = Except.ok (hset bigGroupHeaders "trace"
          ((countTuples (fun _ => 0) (autoIndexRows bigGroupHeaders)).map wrap16)) := by
  unfold analyze_non_indexed_headers autoIndexRows
  rw [show groupingNames bigGroupHeaders = ["shot_point"] from rfl]
  rfl

lemma bigGroup_stored_getD :
    ((countTuples (fun _ => 0) (autoIndexRows bigGroupHeaders)).map wrap16).getD 32767 0
      = -32768 := by
  rw [getD_map_zero wrap16 wrap16_zero]
  rw [autoIndexRows_big]
  have hlen : (32767 : Nat) < (List.replicate 32768 ([0] : List Int)).length := by
    rw [List.length_replicate]
    omega
  rw [countTuples_getD (List.replicate 32768 [0]) (fun _ => 0) 32767 hlen]
  rw [getD_replicate_poly ([0] : List Int) [] 32768 32767 (by omega)]
  rw [List.take_replicate]
  rw [List.count_replicate_self]
  decide

/-- C3 counterexample: on a single duplicate group of 32768 identical
tuples, the stored `trace` ordinal of the last trace is `-32768` (the int16
wrap of the running count 32768), so the stored ordinals within the group
are not `1..k` as claimed. -/
theorem C3_counterexample :
    analyze_non_indexed_headers bigGroupHeaders wrap16
      = Except.ok (hset bigGroupHeaders "trace"
          ((countTuples (fun _ => 0) (autoIndexRows bigGroupHeaders)).map wrap16))
    ∧ hlookup (hset bigGroupHeaders "trace"
          ((countTuples (fun _ => 0) (autoIndexRows bigGroupHeaders)).map wrap16)) "trace"
        = some ((countTuples (fun _ => 0) (autoIndexRows bigGroupHeaders)).map wrap16)
    ∧ (autoIndexRows bigGroupHeaders).count
        ((autoIndexRows bigGroupHeaders).getD 32767 []) = 32768
    ∧ ((countTuples (fun _ => 0) (autoIndexRows bigGroupHeaders)).map wrap16).getD 32767 0
        = -32768
    ∧ ¬ (1 : Int)
        ≤ ((countTuples (fun _ => 0) (autoIndexRows bigGroupHeaders)).map wrap16).getD 32767 0 := by
  refine ⟨analyze_big_eq, hlookup_hset_self _ _ _, ?_, bigGroup_stored_getD, ?_⟩
  · rw [autoIndexRows_big,
      getD_replicate_poly ([0] : List Int) [] 32768 32767 (by omega),
      List.count_replicate_self]
  · rw [bigGroup_stored_getD]
    decide

/-- C9: `create_trace_index` allocates the `trace` array with dtype
`np.int16` by default, `DuplicateIndex.transform` supplies no other dtype,
and numpy 1.x item assignment wraps out-of-range Python ints; on a duplicate
group of 32768 traces the last stored ordinal is `-32768`, which is the true
running count 32768 reduced modulo 2^16, not the count itself. -/
theorem C9_int16_default_wraps :
    DuplicateIndex_transform bigGroupHeaders []
      = Except.ok (hset bigGroupHeaders "trace"
          ((countTuples (fun _ => 0) (autoIndexRows bigGroupHeaders)).map wrap16))
    ∧ ((countTuples (fun _ => 0) (autoIndexRows bigGroupHeaders)).map wrap16).getD 32767 0
        = wrap16 32768
    ∧ wrap16 32768 = -32768
    ∧ wrap16 32768 ≠ 32768
    ∧ wrap16 32768 % 65536 = (32768 : Int) % 65536 := by
  have hv : DuplicateIndex_validate [] = Except.ok () := rfl
  refine ⟨?_, ?_, by decide, by decide, by decide⟩
  · calc DuplicateIndex_transform bigGroupHeaders []
        = analyze_non_indexed_headers bigGroupHeaders wrap16 := by
          unfold DuplicateIndex_transform
          rw [hv]
      _ = _ := analyze_big_eq
  · rw [bigGroup_stored_getD]
    decide

lemma transform_error_of_validate_error (c : Command) (h : Headers) (g : Request)
    (e : GridErr) (hv : c.validate h g = Except.error e) :
    c.transform h g = Except.error e := by
  cases c
  · simp only [Command.validate] at hv
    simp only [Command.transform, DuplicateIndex_transform, hv]
  · simp only [Command.validate] at hv
    simp only [Command.transform, NonBinned_transform, hv]
  · simp only [Command.validate] at hv
    simp only [Command.transform, AutoChannelWrap_transform, hv]
  · simp only [Command.validate] at hv
    simp only [Command.transform, ChannelWrap_transform, hv]
  · simp only [Command.validate] at hv
    simp only [Command.transform, CalculateCable_transform, hv]

lemma validate_incompat (c : Command) (h : Headers) (g : Request)
    (hcw : hasKey g "ChannelWrap" = true)
    (hacw : hasKey g "AutoChannelWrap" = true) :
    ∃ a b, c.validate h g = Except.error (.incompatible a b) := by
  cases c
  · exact ⟨"DuplicateIndex", "ChannelWrap",
      by simp [Command.validate, DuplicateIndex_validate, hcw]⟩
  · exact ⟨"NonBinned", "ChannelWrap",
      by simp [Command.validate, NonBinned_validate, hcw]⟩
  · exact ⟨"AutoChannelWrap", "ChannelWrap",
      by simp [Command.validate, AutoChannelWrap_validate, hcw]⟩
  · exact ⟨"ChannelWrap", "AutoCableChannel",
      by simp [Command.validate, ChannelWrap_validate, hacw]⟩
  · exact ⟨"CalculateCable", "AutoCableChannel",
      by simp [Command.validate, CalculateCable_validate, hacw]⟩

lemma runGo_cons_param (k : String) (v : Int) (rest : List (String × Int))
    (full : Request) (h : Headers) (names : List String) (ck : Option (List Int))
    (hk : k ∈ allowedParameters) :
    runGo ((k, v) :: rest) full h names ck = runGo rest full h names ck := by
  simp only [runGo, if_pos hk]

lemma runGo_cons_unknown (k : String) (v : Int) (rest : List (String × Int))
    (full : Request) (h : Headers) (names : List String) (ck : Option (List Int))
    (hk : k ∉ allowedParameters) (hc : commandName? k = none) :
    runGo ((k, v) :: rest) full h names ck
      = Except.error (.unknownOverride k, h) := by
  simp only [runGo, if_neg hk, hc]

lemma runGo_cons_cmd (k : String) (v : Int) (rest : List (String × Int))
    (full : Request) (h : Headers) (names : List String) (ck : Option (List Int))
    (c : Command) (hk : k ∉ allowedParameters) (hc : commandName? k = some c) :
    runGo ((k, v) :: rest) full h names ck
      = match c.transform h full with
        | .error e => .error (e, h)
        | .ok h1 =>
          match c.transformChunksize ck full with
          | .error e => .error (e, h1)
          | .ok ck1 => runGo rest full h1 (c.transformIndexNames names) ck1 := by
  simp only [runGo, if_neg hk, hc]

lemma runGo_append (a b : List (String × Int)) (full : Request) :
    ∀ (h : Headers) (names : List String) (ck : Option (List Int)),
      runGo (a ++ b) full h names ck
        = match runGo a full h names ck with
          | .error E => .error E
          | .ok (h1, n1, c1) => runGo b full h1 n1 c1 := by
  induction a with
  | nil => intro h names ck; rfl
  | cons q rest ih =>
    intro h names ck
    obtain ⟨k, v⟩ := q
    rw [List.cons_append]
    by_cases hk : k ∈ allowedParameters
    · rw [runGo_cons_param k v (rest ++ b) full h names ck hk,
        runGo_cons_param k v rest full h names ck hk]
      exact ih h names ck
    · cases hc : commandName? k with
      | none =>
        rw [runGo_cons_unknown k v (rest ++ b) full h names ck hk hc,
          runGo_cons_unknown k v rest full h names ck hk hc]
      | some c =>
        rw [runGo_cons_cmd k v (rest ++ b) full h names ck c hk hc,
          runGo_cons_cmd k v rest full h names ck c hk hc]
        cases ht : c.transform h full with
        | error e => rfl
        | ok h1 =>
          cases hck : c.transformChunksize ck full with
          | error e => rfl
          | ok ck1 => exact ih h1 (c.transformIndexNames names) ck1

lemma runGo_incompat (full : Request)
    (hcw : hasKey full "ChannelWrap" = true)
    (hacw : hasKey full "AutoChannelWrap" = true) :
    ∀ (todo : List (String × Int)) (h : Headers) (names : List String)
      (ck : Option (List Int)),
      (∀ p ∈ todo, (commandName? p.1).isSome = true ∨ p.1 ∈ allowedParameters) →
      (∃ p ∈ todo, p.1 ∉ allowedParameters) →
      ∃ a b, runGo todo full h names ck = Except.error (.incompatible a b, h) := by
  intro todo
  induction todo with
  | nil =>
    rintro h names ck _ ⟨p, hp, _⟩
    cases hp
  | cons q rest ih =>
    rintro h names ck hknown hex
    obtain ⟨k, v⟩ := q
    by_cases hk : k ∈ allowedParameters
    · have hex2 : ∃ p ∈ rest, p.1 ∉ allowedParameters := by
        rcases hex with ⟨p, hp, hnp⟩
        rcases List.mem_cons.mp hp with rfl | hp
        · exact absurd hk hnp
        · exact ⟨p, hp, hnp⟩
      rw [runGo_cons_param k v rest full h names ck hk]
      exact ih h names ck (fun p hp => hknown p (List.mem_cons_of_mem _ hp)) hex2
    · have hcmd : (commandName? k).isSome = true := by
        rcases hknown (k, v) (List.mem_cons_self _ _) with h1 | h1
        · exact h1
        · exact absurd h1 hk
      obtain ⟨c, hc⟩ := Option.isSome_iff_exists.mp hcmd
      obtain ⟨a, b, hv⟩ := validate_incompat c h full hcw hacw
      have ht := transform_error_of_validate_error c h full _ hv
      refine ⟨a, b, ?_⟩
      rw [runGo_cons_cmd k v rest full h names ck c hk hc, ht]

/-- C6 (amended): for every request all of whose names are registered
commands or recognized parameters, containing both `ChannelWrap` and
`AutoChannelWrap`, the run fails with an IncompatibleOverrides error
regardless of the order of the names, with the header set untouched. -/
theorem C6_incompatible_pair (g : Request) (h : Headers) (names : List String)
    (ck : Option (List Int))
    (hknown : ∀ p ∈ g, (commandName? p.1).isSome = true ∨ p.1 ∈ allowedParameters)
    (hcw : hasKey g "ChannelWrap" = true)
    (hacw : hasKey g "AutoChannelWrap" = true) :
    ∃ a b, GridOverrider_run h names g ck = Except.error (.incompatible a b, h) := by
  apply runGo_incompat g hcw hacw g h names ck hknown
  have hmem : "ChannelWrap" ∈ g.map Prod.fst := hasKey_iff.mp hcw
  obtain ⟨p, hp, hpk⟩ := List.mem_map.mp hmem
  refine ⟨p, hp, ?_⟩
  rw [hpk]
  decide

/-- Witness for C6 at the two-element request, in both orders. -/
theorem C6_incompatible_pair_witness :
    (∃ a b, GridOverrider_run [] [] [("ChannelWrap", 1), ("AutoChannelWrap", 1)] none
      = Except.error (.incompatible a b, []))
    ∧ (∃ a b, GridOverrider_run [] [] [("AutoChannelWrap", 1), ("ChannelWrap", 1)] none
      = Except.error (.incompatible a b, [])) :=
  ⟨C6_incompatible_pair [("ChannelWrap", 1), ("AutoChannelWrap", 1)] [] [] none
      (by decide) rfl rfl,
    C6_incompatible_pair [("AutoChannelWrap", 1), ("ChannelWrap", 1)] [] [] none
      (by decide) rfl rfl⟩

/-- C6 counterexample: a request containing both `ChannelWrap` and
`AutoChannelWrap` but led by an unrecognized name fails with
UnknownOverride, not IncompatibleOverrides. -/
theorem C6_counterexample :
    GridOverrider_run [] [] [("Foo", 1), ("ChannelWrap", 1), ("AutoChannelWrap", 1)] none
      = Except.error (.unknownOverride "Foo", [])
    ∧ (GridErr.unknownOverride "Foo").isIncompatible = false :=
  ⟨rfl, rfl⟩

/-- C7: in a multi-override run, when a later command's validation fails
after earlier commands applied successfully, the whole run aborts with that
command's error; the header set carried out of the run is exactly the one
produced by the earlier commands (their mutations remain in place) and the
failing command contributes no mutation of its own (commands validate at
the start of their own transform, before touching any header). -/
theorem C7_later_validation_failure (full pre post : Request) (k : String)
    (v : Int) (c : Command) (e : GridErr) (h h1 : Headers)
    (names names1 : List String) (ck ck1 : Option (List Int))
    (hpre : runGo pre full h names ck = Except.ok (h1, names1, ck1))
    (hk : k ∉ allowedParameters)
    (hc : commandName? k = some c)
    (hv : c.validate h1 full = Except.error e) :
    runGo (pre ++ (k, v) :: post) full h names ck = Except.error (e, h1) := by
  rw [runGo_append pre ((k, v) :: post) full h names ck, hpre]
  have ht := transform_error_of_validate_error c h1 full e hv
  show runGo ((k, v) :: post) full h1 names1 ck1 = Except.error (e, h1)
  rw [runGo_cons_cmd k v post full h1 names1 ck1 c hk hc, ht]

/-- Witness for C7: AutoChannelWrap applies, then NonBinned's validation
fails; the run returns the MissingParameter error together with the headers
as mutated by AutoChannelWrap. -/
theorem C7_later_validation_failure_witness :
    runGo [("AutoChannelWrap", 1)] reqC7 hC7 ["d"] none
      = Except.ok (hC7, ["d"], none)
    ∧ Command.validate Command.nonBinned hC7 reqC7
      = Except.error (.missingParameter "NonBinned")
    ∧ GridOverrider_run hC7 ["d"] reqC7 none
      = Except.error (.missingParameter "NonBinned", hC7) :=
  ⟨rfl, rfl,
    C7_later_validation_failure reqC7 [("AutoChannelWrap", 1)] [] "NonBinned" 1
      Command.nonBinned (.missingParameter "NonBinned") hC7 hC7 ["d"] ["d"]
      none none rfl (by decide) rfl rfl⟩

lemma runGo_skip_params (full : Request) :
    ∀ (ps rest2 : List (String × Int)) (h : Headers) (names : List String)
      (ck : Option (List Int)),
      (∀ p ∈ ps, p.1 ∈ allowedParameters) →
      runGo (ps ++ rest2) full h names ck = runGo rest2 full h names ck := by
  intro ps
  induction ps with
  | nil => intro rest2 h names ck _; rfl
  | cons q t ih =>
    intro rest2 h names ck hps
    obtain ⟨k, v⟩ := q
    rw [List.cons_append,
      runGo_cons_param k v (t ++ rest2) full h names ck (hps (k, v) (List.mem_cons_self _ _))]
    exact ih rest2 h names ck (fun p hp => hps p (List.mem_cons_of_mem _ hp))

lemma analyze_eq_of_ne (h : Headers) (dt : Int → Int) (hgn : groupingNames h ≠ []) :
    analyze_non_indexed_headers h dt
      = Except.ok (hset h "trace"
          ((countTuples (fun _ => 0) (autoIndexRows h)).map dt)) := by
  unfold analyze_non_indexed_headers autoIndexRows
  rw [if_neg hgn]

lemma DuplicateIndex_validate_ok (g : Request)
    (hcw : hasKey g "ChannelWrap" = false)
    (hcc : hasKey g "CalculateCable" = false) :
    DuplicateIndex_validate g = Except.ok () := by
  simp [DuplicateIndex_validate, hcw, hcc]

lemma NonBinned_validate_ok (g : Request)
    (hcw : hasKey g "ChannelWrap" = false)
    (hcc : hasKey g "CalculateCable" = false)
    (hch : hasKey g "chunksize" = true) :
    NonBinned_validate g = Except.ok () := by
  simp [NonBinned_validate, hcw, hcc, check_required_params, hch]

lemma DuplicateIndex_transform_ok (h : Headers) (g : Request)
    (hcw : hasKey g "ChannelWrap" = false)
    (hcc : hasKey g "CalculateCable" = false)
    (hgn : groupingNames h ≠ []) :
    DuplicateIndex_transform h g
      = Except.ok (hset h "trace"
          ((countTuples (fun _ => 0) (autoIndexRows h)).map wrap16)) := by
  unfold DuplicateIndex_transform
  rw [DuplicateIndex_validate_ok g hcw hcc]
  exact analyze_eq_of_ne h wrap16 hgn

lemma NonBinned_transform_ok (h : Headers) (g : Request)
    (hcw : hasKey g "ChannelWrap" = false)
    (hcc : hasKey g "CalculateCable" = false)
    (hch : hasKey g "chunksize" = true)
    (hgn : groupingNames h ≠ []) :
    NonBinned_transform h g
      = Except.ok (hset h "trace"
          ((countTuples (fun _ => 0) (autoIndexRows h)).map wrap16)) := by
  unfold NonBinned_transform
  rw [NonBinned_validate_ok g hcw hcc hch]
  exact analyze_eq_of_ne h wrap16 hgn

/-- C10: running the engine with the chunk-shape argument left as `None`
while `HasDuplicates` or `NonBinned` is requested (and reachable: any names
before it are parameters, no incompatible override is present, NonBinned's
`chunksize` parameter is supplied, and there is at least one grouping
header) raises a plain TypeError from `list(None)` rather than any of the
four grid-override error kinds — and only after the header mutation (the
new `trace` array) has already been applied. A present chunk-shape
sequence is an unstated precondition of these two overrides. -/
theorem C10_none_chunkshape (h : Headers) (names : List String)
    (ps rest : Request) (k : String) (v : Int)
    (hps : ∀ p ∈ ps, p.1 ∈ allowedParameters)
    (hk : k = "HasDuplicates" ∨ k = "NonBinned")
    (hcw : hasKey (ps ++ (k, v) :: rest) "ChannelWrap" = false)
    (hcc : hasKey (ps ++ (k, v) :: rest) "CalculateCable" = false)
    (hch : k = "NonBinned" → hasKey (ps ++ (k, v) :: rest) "chunksize" = true)
    (hgn : groupingNames h ≠ []) :
    GridOverrider_run h names (ps ++ (k, v) :: rest) none
      = Except.error (.typeError,
          hset h "trace" ((countTuples (fun _ => 0) (autoIndexRows h)).map wrap16)) := by
  unfold GridOverrider_run
  rw [runGo_skip_params (ps ++ (k, v) :: rest) ps ((k, v) :: rest) h names none hps]
  rcases hk with rfl | rfl
  · rw [runGo_cons_cmd "HasDuplicates" v rest (ps ++ ("HasDuplicates", v) :: rest)
      h names none Command.duplicateIndex (by decide) rfl]
    have ht := DuplicateIndex_transform_ok h (ps ++ ("HasDuplicates", v) :: rest) hcw hcc hgn
    rw [show Command.transform Command.duplicateIndex h (ps ++ ("HasDuplicates", v) :: rest)
        = DuplicateIndex_transform h (ps ++ ("HasDuplicates", v) :: rest) from rfl, ht]
    rfl
  · rw [runGo_cons_cmd "NonBinned" v rest (ps ++ ("NonBinned", v) :: rest)
      h names none Command.nonBinned (by decide) rfl]
    have ht := NonBinned_transform_ok h (ps ++ ("NonBinned", v) :: rest) hcw hcc (hch rfl) hgn
    rw [show Command.transform Command.nonBinned h (ps ++ ("NonBinned", v) :: rest)
        = NonBinned_transform h (ps ++ ("NonBinned", v) :: rest) from rfl, ht]
    rfl

/-- Witness for C10: `HasDuplicates` with no chunk shape on
`shot_point = [5, 5]`. -/
theorem C10_none_chunkshape_witness :
    GridOverrider_run [("shot_point", [5, 5])] ["shot_point", "sample"]
        [("HasDuplicates", 1)] none
      = Except.error (.typeError,
          hset [("shot_point", [5, 5])] "trace"
            ((countTuples (fun _ => 0)
              (autoIndexRows [("shot_point", [5, 5])])).map wrap16)) :=
  C10_none_chunkshape [("shot_point", [5, 5])] ["shot_point", "sample"] [] [] 
    "HasDuplicates" 1 (by simp) (Or.inl rfl) rfl rfl
    (fun hh => absurd hh (by decide)) (by decide)

/-- C4 counterexample: applying ChannelWrap and then CalculateCable (the
claimed order) does not recover the original absolute cable assignment:
CalculateCable runs on the already-wrapped channels (all in `[1, cpc]`), so
every cable collapses to 1, while the original assignment was `[1,1,2,2]`. -/
theorem C4_counterexample :
    ([1, 1, 2, 2] : List Int) = [1, 2, 3, 4].map (fun x => Int.fdiv (x - 1) 2 + 1)
    ∧ GridOverrider_run hC4 ["shot_point", "cable", "channel"] gC4 none
      = Except.ok ([("shot_point", [1, 1, 1, 1]), ("cable", [1, 1, 1, 1]),
          ("channel", [1, 2, 1, 2])], ["shot_point", "cable", "channel"], none)
    ∧ hlookup [("shot_point", [1, 1, 1, 1]), ("cable", [1, 1, 1, 1]),
          ("channel", [1, 2, 1, 2])] "cable"
        ≠ hlookup hC4 "cable" :=
  ⟨by decide, rfl, by decide⟩

/-- C4 (amended): applying CalculateCable first and then ChannelWrap with
the same `ChannelsPerCable` recovers the original absolute cable assignment
when source channels are contiguous and unwrapped: CalculateCable recomputes
the absolute assignment from the still-unwrapped channels, and ChannelWrap
then folds the channels without touching the cable array. -/
theorem C4_roundtrip (h h1 h2 : Headers) (g : Request) (cpc : Int)
    (ch cbl : List Int)
    (hcpc : lookupVal g "ChannelsPerCable" = some cpc)
    (hpos : 0 < cpc)
    (hch : hlookup h "channel" = some ch)
    (hcbl : hlookup h "cable" = some cbl)
    (habs : cbl = ch.map (fun x => Int.fdiv (x - 1) cpc + 1))
    (_hunwrapped : ∀ x ∈ ch, 1 ≤ x)
    (hok1 : CalculateCable_transform h g = Except.ok h1)
    (hok2 : ChannelWrap_transform h1 g = Except.ok h2) :
    hlookup h2 "cable" = hlookup h "cable"
    ∧ hlookup h2 "cable" = some cbl := by
  have hne : cpc ≠ 0 := by omega
  have hh1 : h1 = hset h "cable" (ch.map (fun x => npFdiv (x - 1) cpc + 1)) := by
    unfold CalculateCable_transform at hok1
    split at hok1
    · simp at hok1
    · simp only [Except.ok.injEq] at hok1
      rw [← hok1, hcpc, hch]
      simp only [Option.getD_some]
  have hcab1 : hlookup h1 "cable" = some cbl := by
    rw [hh1, hlookup_hset_self, habs]
    congr 1
    apply List.map_congr_left
    intro x _
    simp [npFdiv, hne]
  have hh2 : h2 = hset h1 "channel"
      (((hlookup h1 "channel").getD []).map
        (fun x => npFmod (x - 1) ((lookupVal g "ChannelsPerCable").getD 0) + 1)) := by
    unfold ChannelWrap_transform at hok2
    split at hok2
    · simp at hok2
    · simp only [Except.ok.injEq] at hok2
      exact hok2.symm
  have hcab2 : hlookup h2 "cable" = hlookup h1 "cable" := by
    rw [hh2]
    exact hlookup_hset_ne h1 "channel" _ "cable" (by decide)
  constructor
  · rw [hcab2, hcab1, hcbl]
  · rw [hcab2, hcab1]

/-- Witness for C4 (amended) on the concrete headers: CalculateCable
recomputes `[1,1,2,2]`, ChannelWrap wraps the channels, cable is preserved. -/
theorem C4_roundtrip_witness :
    hlookup [("shot_point", [1, 1, 1, 1]), ("cable", [1, 1, 2, 2]),
        ("channel", [1, 2, 1, 2])] "cable" = hlookup hC4 "cable"
    ∧ hlookup [("shot_point", [1, 1, 1, 1]), ("cable", [1, 1, 2, 2]),
        ("channel", [1, 2, 1, 2])] "cable" = some [1, 1, 2, 2] :=
  C4_roundtrip hC4 hC4
    [("shot_point", [1, 1, 1, 1]), ("cable", [1, 1, 2, 2]), ("channel", [1, 2, 1, 2])]
    [("ChannelsPerCable", 2)] 2 [1, 2, 3, 4] [1, 1, 2, 2]
    rfl (by decide) rfl rfl (by decide) (by decide) rfl rfl

lemma check_required_keys_ok {name : String} {rk : List String} {h : Headers}
    {u : Unit} (hok : check_required_keys name rk h = Except.ok u) :
    ∀ k ∈ rk, k ∈ hkeys h := by
  unfold check_required_keys at hok
  by_cases hc : (rk.all (fun k => (hkeys h).contains k)) = true
  · intro k hk
    have hck := List.all_eq_true.mp hc k hk
    simpa using hck
  · rw [if_neg hc] at hok
    simp at hok

lemma AutoChannelWrap_validate_keys {h : Headers} {g : Request} {u : Unit}
    (hv : AutoChannelWrap_validate h g = Except.ok u) :
    "cable" ∈ hkeys h ∧ "channel" ∈ hkeys h := by
  unfold AutoChannelWrap_validate at hv
  split at hv
  · simp at hv
  · split at hv
    · simp at hv
    · exact ⟨check_required_keys_ok hv "cable" (by simp),
        check_required_keys_ok hv "channel" (by simp)⟩

lemma ChannelWrap_validate_keys {h : Headers} {g : Request} {u : Unit}
    (hv : ChannelWrap_validate h g = Except.ok u) :
    "channel" ∈ hkeys h := by
  unfold ChannelWrap_validate at hv
  split at hv
  · simp at hv
  · cases hck : check_required_keys "ChannelWrap" ["shot_point", "cable", "channel"] h with
    | error e =>
      rw [hck] at hv
      exact Except.noConfusion hv
    | ok u2 =>
      exact check_required_keys_ok hck "channel" (by simp)

lemma CalculateCable_validate_keys {h : Headers} {g : Request} {u : Unit}
    (hv : CalculateCable_validate h g = Except.ok u) :
    "channel" ∈ hkeys h := by
  unfold CalculateCable_validate at hv
  split at hv
  · simp at hv
  · cases hck : check_required_keys "CalculateCable" ["shot_point", "cable", "channel"] h with
    | error e =>
      rw [hck] at hv
      exact Except.noConfusion hv
    | ok u2 =>
      exact check_required_keys_ok hck "channel" (by simp)

lemma groupingNames_sub (h : Headers) : ∀ n ∈ groupingNames h, n ∈ hkeys h := by
  intro n hn
  exact (List.mem_filter.mp hn).1

lemma autoIndexRows_length (h : Headers) :
    (autoIndexRows h).length = minLenOf h (groupingNames h) := by
  unfold autoIndexRows groupRows
  rw [List.length_map, List.length_range]

lemma minLenOf_const (h : Headers) (N : Nat)
    (hall : ∀ p ∈ h, (p.2 : List Int).length = N) :
    ∀ names : List String, names ≠ [] → (∀ n ∈ names, n ∈ hkeys h) →
      minLenOf h names = N := by
  have hlen : ∀ m, m ∈ hkeys h → ((hlookup h m).getD []).length = N := by
    intro m hm
    obtain ⟨arr, harr⟩ := hlookup_of_mem_hkeys hm
    rw [harr, Option.getD_some]
    exact hall (m, arr) (hlookup_mem harr)
  have haux : ∀ (rest : List String),
      (∀ m ∈ rest, m ∈ hkeys h) →
      rest.foldl (fun m n2 => min m ((hlookup h n2).getD []).length) N = N := by
    intro rest
    induction rest with
    | nil => intro _; rfl
    | cons a t ih2 =>
      intro hr
      simp only [List.foldl_cons]
      rw [hlen a (hr a (List.mem_cons_self _ _)), Nat.min_self]
      exact ih2 (fun m hm => hr m (List.mem_cons_of_mem _ hm))
  intro names hne hsub
  cases names with
  | nil => exact absurd rfl hne
  | cons n rest =>
    simp only [minLenOf]
    rw [hlen n (hsub n (List.mem_cons_self _ _))]
    exact haux rest (fun m hm => hsub m (List.mem_cons_of_mem _ hm))

lemma hset_preserves (h : Headers) (key : String) (arr : List Int) (N : Nat)
    (hall : ∀ p ∈ h, (p.2 : List Int).length = N) (harr : arr.length = N) :
    (∀ p ∈ hset h key arr, (p.2 : List Int).length = N)
    ∧ (∀ k, k ≠ key → hlookup (hset h key arr) k = hlookup h k)
    ∧ (∀ k, k ∈ hkeys h → k ∈ hkeys (hset h key arr)) := by
  refine ⟨?_, ?_, ?_⟩
  · intro p hp
    rcases mem_hset hp with rfl | hp
    · exact harr
    · exact hall p hp
  · intro k hk
    exact hlookup_hset_ne h key arr k hk
  · intro k _
    exact hkeys_mem_hset (by assumption)

/-- C8: every command's transform keeps all header arrays (including a newly
added `trace`) at the common length N, leaves every header it does not write
untouched (so no existing array is reordered), and never removes a key;
transforms operate per-index across the arrays in lockstep. -/
theorem C8_transform_lockstep (c : Command) (h h' : Headers) (g : Request)
    (N : Nat)
    (hall : ∀ p ∈ h, (p.2 : List Int).length = N)
    (hok : c.transform h g = Except.ok h') :
    (∀ p ∈ h', (p.2 : List Int).length = N)
    ∧ (∀ k, k ∉ writtenKeys c → hlookup h' k = hlookup h k)
    ∧ (∀ k, k ∈ hkeys h → k ∈ hkeys h') := by
  cases c with
  | duplicateIndex =>
    simp only [Command.transform] at hok
    unfold DuplicateIndex_transform at hok
    split at hok
    · simp at hok
    · obtain ⟨hg, hh'⟩ := analyze_ok_char h wrap16 h' hok
      have harr : ((countTuples (fun _ => 0) (autoIndexRows h)).map wrap16).length = N := by
        rw [List.length_map, countTuples_length, autoIndexRows_length]
        exact minLenOf_const h N hall (groupingNames h) hg (groupingNames_sub h)
      rw [hh']
      have hp := hset_preserves h "trace" _ N hall harr
      refine ⟨hp.1, ?_, hp.2.2⟩
      intro k hk
      exact hp.2.1 k (by simpa [writtenKeys] using hk)
  | nonBinned =>
    simp only [Command.transform] at hok
    unfold NonBinned_transform at hok
    split at hok
    · simp at hok
    · obtain ⟨hg, hh'⟩ := analyze_ok_char h wrap16 h' hok
      have harr : ((countTuples (fun _ => 0) (autoIndexRows h)).map wrap16).length = N := by
        rw [List.length_map, countTuples_length, autoIndexRows_length]
        exact minLenOf_const h N hall (groupingNames h) hg (groupingNames_sub h)
      rw [hh']
      have hp := hset_preserves h "trace" _ N hall harr
      refine ⟨hp.1, ?_, hp.2.2⟩
      intro k hk
      exact hp.2.1 k (by simpa [writtenKeys] using hk)
  | autoChannelWrap =>
    simp only [Command.transform] at hok
    unfold AutoChannelWrap_transform at hok
    cases hv : AutoChannelWrap_validate h g with
    | error e =>
      rw [hv] at hok
      exact Except.noConfusion hok
    | ok u =>
      rw [hv] at hok
      obtain ⟨hcabk, hchk⟩ := AutoChannelWrap_validate_keys hv
      obtain ⟨cable, hcab⟩ := hlookup_of_mem_hkeys hcabk
      obtain ⟨channel, hch⟩ := hlookup_of_mem_hkeys hchk
      have hlc : cable.length = N := hall _ (hlookup_mem hcab)
      have lch : channel.length = N := hall _ (hlookup_mem hch)
      have hok2 : hset h "channel"
          (autoChannelWrapChannels ((hlookup h "cable").getD [])
            ((hlookup h "channel").getD [])) = h' := Except.ok.inj hok
      rw [← hok2, hcab, hch]
      simp only [Option.getD_some]
      have harr : (autoChannelWrapChannels cable channel).length = N := by
        rw [autoChannelWrapChannels_length cable channel (by rw [hlc, lch])]
        exact hlc
      have hp := hset_preserves h "channel" _ N hall harr
      refine ⟨hp.1, ?_, hp.2.2⟩
      intro k hk
      exact hp.2.1 k (by simpa [writtenKeys] using hk)
  | channelWrap =>
    simp only [Command.transform] at hok
    unfold ChannelWrap_transform at hok
    cases hv : ChannelWrap_validate h g with
    | error e =>
      rw [hv] at hok
      exact Except.noConfusion hok
    | ok u =>
      rw [hv] at hok
      have hchk := ChannelWrap_validate_keys hv
      obtain ⟨ch, hch⟩ := hlookup_of_mem_hkeys hchk
      have hlen : ch.length = N := hall _ (hlookup_mem hch)
      have hok2 : hset h "channel"
          (((hlookup h "channel").getD []).map
            (fun x => npFmod (x - 1) ((lookupVal g "ChannelsPerCable").getD 0) + 1))
          = h' := Except.ok.inj hok
      rw [← hok2, hch]
      simp only [Option.getD_some]
      have harr : (ch.map
          (fun x => npFmod (x - 1) ((lookupVal g "ChannelsPerCable").getD 0) + 1)).length
          = N := by
        rw [List.length_map]
        exact hlen
      have hp := hset_preserves h "channel" _ N hall harr
      refine ⟨hp.1, ?_, hp.2.2⟩
      intro k hk
      exact hp.2.1 k (by simpa [writtenKeys] using hk)
  | calculateCable =>
    simp only [Command.transform] at hok
    unfold CalculateCable_transform at hok
    cases hv : CalculateCable_validate h g with
    | error e =>
      rw [hv] at hok
      exact Except.noConfusion hok
    | ok u =>
      rw [hv] at hok
      have hchk := CalculateCable_validate_keys hv
      obtain ⟨ch, hch⟩ := hlookup_of_mem_hkeys hchk
      have hlen : ch.length = N := hall _ (hlookup_mem hch)
      have hok2 : hset h "cable"
          (((hlookup h "channel").getD []).map
            (fun x => npFdiv (x - 1) ((lookupVal g "ChannelsPerCable").getD 0) + 1))
          = h' := Except.ok.inj hok
      rw [← hok2, hch]
      simp only [Option.getD_some]
      have harr : (ch.map
          (fun x => npFdiv (x - 1) ((lookupVal g "ChannelsPerCable").getD 0) + 1)).length
          = N := by
        rw [List.length_map]
        exact hlen
      have hp := hset_preserves h "cable" _ N hall harr
      refine ⟨hp.1, ?_, hp.2.2⟩
      intro k hk
      exact hp.2.1 k (by simpa [writtenKeys] using hk)

/-- Witness for C8: ChannelWrap on one trace keeps all arrays at length 1,
does not touch `shot_point`/`cable`, and keeps all keys. -/
theorem C8_transform_lockstep_witness :
    (∀ p ∈ ([("shot_point", [1]), ("cable", [1]), ("channel", [1])] : Headers),
      (p.2 : List Int).length = 1)
    ∧ (∀ k, k ∉ writtenKeys Command.channelWrap →
        hlookup [("shot_point", [1]), ("cable", [1]), ("channel", [1])] k
          = hlookup hC5 k)
    ∧ (∀ k, k ∈ hkeys hC5 →
        k ∈ hkeys [("shot_point", [1]), ("cable", [1]), ("channel", [1])]) :=
  C8_transform_lockstep Command.channelWrap hC5
    [("shot_point", [1]), ("cable", [1]), ("channel", [1])]
    [("ChannelsPerCable", 2)] 1 (by decide) rfl
